import Mathlib

/-!
Shallow embedding of the esizzle PDF-manipulation Lambda
(src/lambda/pdf-processor): main.py, processors/manipulation_orchestrator.py,
processors/redaction_processor.py, processors/rotation_processor.py,
processors/deletion_processor.py, processors/splitting_processor.py and
utils/db_manager.py / utils/s3_manager.py.

The PDF engine (PyMuPDF) is out of scope; a PDF is modelled as a list of
pages carrying the attributes the pipeline mutates (rotation, rasterized
flag).  Database and object-store effects are modelled as explicit state
passing over a state record that also accumulates an event trace: each
db_manager method opens its own connection and commits, which is modelled
by appending a write event followed by a commit event.
-/

set_option linter.unusedVariables false

namespace PdfProc

/-- One page of the in-memory PDF.  PyMuPDF page attributes that the
pipeline mutates: the absolute rotation set by set_rotation, and whether
the page content was replaced by a rasterized image. -/
structure PdfPage where
  rot : Int := 0
  rasterized : Bool := false
deriving DecidableEq, Repr, Inhabited

/-- A PDF byte buffer, abstracted to its page sequence. -/
abbrev Pdf := List PdfPage

/-- Row of the Image table as selected by DatabaseManager.get_image_record
(db_manager.py lines 85-109).  BucketPrefix is shortened to bucketPfx. -/
structure ImageRecord where
  id : Nat
  path : String
  bucketPfx : String
  imageStatusTypeId : Nat
  docTypeManualId : Nat
  pageCount : Int
  deleted : Bool
  documentDate : Option Nat
  comments : Option String
deriving DecidableEq, Repr

/-- Row of ImageRedaction as loaded by get_pending_redactions.  applyFails
models the PDF engine raising inside _apply_single_redaction
(redaction_processor.py lines 73-80), which the source catches per row. -/
structure Redaction where
  id : Nat
  pageNumber : Nat
  applyFails : Bool := false
deriving DecidableEq, Repr

/-- Row of ImageRotation as loaded by get_rotations. -/
structure Rotation where
  id : Nat
  pageIndex : Int
  rotate : Int
deriving DecidableEq, Repr

/-- Row of ImagePageDeletion as loaded by get_page_deletions. -/
structure Deletion where
  id : Nat
  pageIndex : Int
deriving DecidableEq, Repr

/-- Row of ImageBookmark (a page break) as loaded by get_page_breaks. -/
structure Bookmark where
  id : Nat
  pageIndex : Int
  imageDocumentTypeId : Nat
  documentDate : Option Nat
  comments : Option String
deriving DecidableEq, Repr

/-- Persisted state of an ImageRedaction row (Applied / Deleted flags). -/
structure RedRow where
  id : Nat
  applied : Bool
  deleted : Bool
deriving DecidableEq, Repr

/-- Persisted state of an ImageBookmark row: the loaded fields plus the
mutable ResultImageID / Deleted columns set by mark_bookmark_processed. -/
structure BookmarkRow where
  bm : Bookmark
  resultImageId : Option Nat
  deleted : Bool
deriving DecidableEq, Repr

/-- Image row inserted by DatabaseManager.create_split_image
(db_manager.py lines 363-416). -/
structure SplitRow where
  id : Nat
  docTypeManualId : Nat
  pageCount : Int
  statusId : Nat
  path : String
  bucketPfx : String
  documentDate : Option Nat
  comments : String
  splitFromImageId : Nat
  splitType : String
deriving DecidableEq, Repr

/-- A single SQL write executed by one of the db_manager methods. -/
inductive DbWrite where
  | setStatus (imageId statusId : Nat)
  | setPageCount (imageId : Nat) (n : Int)
  | markImageDeleted (imageId : Nat)
  | markRedactionApplied (redactionId : Nat)
  | markPageDeletionProcessed (deletionId : Nat)
  | setDocTypeMeta (imageId docTypeId : Nat) (date : Option Nat) (comments : Option String)
  | markBookmarkProcessed (bookmarkId resultImageId : Nat)
  | insertImage (newId : Nat)
  | insertSplitLog (srcId derivedId : Nat)
deriving DecidableEq, BEq, Repr

/-- Database event: a write, or the commit ending a transaction.  Every
db_manager method commits its own writes on its own connection. -/
inductive DbEv where
  | write (w : DbWrite)
  | commit
deriving DecidableEq, BEq, Repr

/-- World state threaded through the pipeline: the source Image row, the
edit tables, the rows and audit rows produced by splitting, the
object store (key to content) and the accumulated event traces. -/
structure St where
  src : ImageRecord
  redRows : List RedRow
  bookRows : List BookmarkRow
  splitRows : List SplitRow
  splitLogs : List (Nat × Nat)
  nextImageId : Nat
  dbTrace : List DbEv
  s3Store : List (String × Pdf)
  s3ReadKeys : List String
  s3WriteKeys : List String
  s3HeadKeys : List String

/-- Append one SQL write and the commit that db_manager issues for it. -/
def pushDb (w : DbWrite) (st : St) : St :=
  { st with dbTrace := st.dbTrace ++ [DbEv.write w, DbEv.commit] }

/-- Status-string mapping of DatabaseManager.update_image_status
(db_manager.py lines 217-233). -/
def statusId? (s : String) : Option Nat :=
  if s = "Sync" then some 1
  else if s = "NeedsProcessing" then some 3
  else if s = "NeedsImageManipulation" then some 7
  else if s = "PendingWorkman" then some 8
  else if s = "InWorkman" then some 9
  else if s = "Obsolete" then some 15
  else none

/-- DatabaseManager.update_image_status: map the status string, update the
row, commit.  An unknown status only logs and returns False. -/
def dbUpdateImageStatus (imageId : Nat) (status : String) (st : St) : St :=
  match statusId? status with
  | none => st
  | some sid =>
      pushDb (DbWrite.setStatus imageId sid)
        { st with src := if st.src.id = imageId
                         then { st.src with imageStatusTypeId := sid } else st.src }

/-- DatabaseManager.update_page_count. -/
def dbUpdatePageCount (imageId : Nat) (n : Int) (st : St) : St :=
  pushDb (DbWrite.setPageCount imageId n)
    { st with src := if st.src.id = imageId
                     then { st.src with pageCount := n } else st.src }

/-- DatabaseManager.mark_image_deleted: tombstone the Image row. -/
def dbMarkImageDeleted (imageId : Nat) (st : St) : St :=
  pushDb (DbWrite.markImageDeleted imageId)
    { st with src := if st.src.id = imageId
                     then { st.src with deleted := true } else st.src }

/-- DatabaseManager.mark_redaction_applied: set Applied=1 on the row. -/
def dbMarkRedactionApplied (redactionId : Nat) (st : St) : St :=
  pushDb (DbWrite.markRedactionApplied redactionId)
    { st with redRows := st.redRows.map fun r =>
        if r.id = redactionId then { r with applied := true } else r }

/-- DatabaseManager.mark_page_deletion_processed (sets DateProcessed). -/
def dbMarkPageDeletionProcessed (deletionId : Nat) (st : St) : St :=
  pushDb (DbWrite.markPageDeletionProcessed deletionId) st

/-- Truthiness of an optional string, as Python evaluates it: None and the
empty string are falsy. -/
def strTruthy : Option String → Bool
  | none => false
  | some c => c != ""

/-- DatabaseManager.update_image_document_type (db_manager.py lines
310-342): DocTypeManualID is always updated; DocumentDate and Comments
only when truthy. -/
def dbUpdateImageDocumentType (imageId docTypeId : Nat) (docDate : Option Nat)
    (comments : Option String) (st : St) : St :=
  let s0 := st.src
  let s1 := if s0.id = imageId then { s0 with docTypeManualId := docTypeId } else s0
  let s2 := if s1.id = imageId && docDate.isSome
            then { s1 with documentDate := docDate } else s1
  let s3 := if s2.id = imageId && strTruthy comments
            then { s2 with comments := comments } else s2
  pushDb (DbWrite.setDocTypeMeta imageId docTypeId docDate comments) { st with src := s3 }

/-- DatabaseManager.mark_bookmark_processed (db_manager.py lines 344-361):
set ResultImageID, tombstone the bookmark, commit. -/
def dbMarkBookmarkProcessed (bookmarkId resultImageId : Nat) (st : St) : St :=
  pushDb (DbWrite.markBookmarkProcessed bookmarkId resultImageId)
    { st with bookRows := st.bookRows.map fun r =>
        if r.bm.id = bookmarkId
        then { r with resultImageId := some resultImageId, deleted := true } else r }

/-- DatabaseManager.create_split_image (db_manager.py lines 363-416):
insert a new Image row inheriting scope from the original; Comments
defaults to a human-readable label when the given comments are falsy. -/
def dbCreateSplitImage (orig : ImageRecord) (docTypeId : Nat) (pageCount : Int)
    (pageRange : Int × Int) (docDate : Option Nat) (comments : String)
    (splitType : String) (st : St) : Nat × St :=
  let newId := st.nextImageId
  let comm := if comments = "" then
      "Split from image " ++ toString orig.id ++ " (pages " ++
        toString pageRange.1 ++ "-" ++ toString (pageRange.2 - 1) ++ ")"
    else comments
  let row : SplitRow :=
    { id := newId, docTypeManualId := docTypeId, pageCount := pageCount,
      statusId := 1, path := orig.path, bucketPfx := orig.bucketPfx,
      documentDate := docDate, comments := comm,
      splitFromImageId := orig.id, splitType := splitType }
  (newId,
    pushDb (DbWrite.insertImage newId)
      { st with splitRows := st.splitRows ++ [row], nextImageId := newId + 1 })

/-- DatabaseManager.create_split_log: append one ImageSplitLog row. -/
def dbCreateSplitLog (srcId derivedId : Nat) (st : St) : St :=
  pushDb (DbWrite.insertSplitLog srcId derivedId)
    { st with splitLogs := st.splitLogs ++ [(srcId, derivedId)] }

/-- DatabaseManager.get_image_record: the row, provided Deleted = 0. -/
def getImageRecord (imageId : Nat) (st : St) : Option ImageRecord :=
  if st.src.id = imageId && !st.src.deleted then some st.src else none

/-- The single path helper: every object-store key the pipeline forms is a
stage prefix, the record's path fragment, and the id twice
(manipulation_orchestrator.py lines 74, 96, 213; splitting_processor.py
lines 258-263; s3_manager.py S3PathManager). -/
def mkKey (stage path : String) (id : Nat) : String :=
  stage ++ "/" ++ path ++ "/" ++ toString id ++ "/" ++ toString id ++ ".pdf"

/-- Record one attempted object-store read in the trace. -/
def addReadKey (key : String) (st : St) : St :=
  { st with s3ReadKeys := st.s3ReadKeys ++ [key] }

/-- S3Manager.download_file: look the key up; the attempt is traced. -/
def s3download (key : String) (st : St) : Option Pdf × St :=
  (st.s3Store.lookup key, addReadKey key st)

/-- S3Manager.upload_file: put the content at the key (overwriting). -/
def s3upload (content : Pdf) (key : String) (st : St) : St :=
  { st with s3Store := (key, content) :: st.s3Store,
            s3WriteKeys := st.s3WriteKeys ++ [key] }

/-- S3Manager.file_exists (head_object). -/
def s3exists (key : String) (st : St) : Bool × St :=
  ((st.s3Store.lookup key).isSome, { st with s3HeadKeys := st.s3HeadKeys ++ [key] })

/-- Python set(): keep one copy of every value (the order is irrelevant
because the result is sorted right after). -/
def dedup : List Int → List Int
  | [] => []
  | x :: xs => if x ∈ xs then dedup xs else x :: dedup xs

/-- Insert into a descending list (used to model sorted(-, reverse=True)). -/
def insertDesc (x : Int) : List Int → List Int
  | [] => [x]
  | y :: ys => if x ≥ y then x :: y :: ys else y :: insertDesc x ys

/-- sorted(-, reverse=True) on integers. -/
def sortDesc (l : List Int) : List Int := l.foldr insertDesc []

/-- Stable insertion by ascending PageIndex. -/
def insertAsc (b : Bookmark) : List Bookmark → List Bookmark
  | [] => [b]
  | y :: ys => if b.pageIndex < y.pageIndex then b :: y :: ys else y :: insertAsc b ys

/-- sorted(page_breaks, key=PageIndex): stable ascending sort
(splitting_processor.py line 55). -/
def sortBreaks (l : List Bookmark) : List Bookmark := l.foldr insertAsc []

/-- Python dict grouping of redactions by PageNumber
(redaction_processor.py lines 53-58): keys in order of first occurrence,
each group in list order. -/
def insertGroup (acc : List (Nat × List Redaction)) (r : Redaction) :
    List (Nat × List Redaction) :=
  if acc.any (fun g => g.1 = r.pageNumber) then
    acc.map fun g => if g.1 = r.pageNumber then (g.1, g.2 ++ [r]) else g
  else acc ++ [(r.pageNumber, [r])]

def groupByPage (reds : List Redaction) : List (Nat × List Redaction) :=
  reds.foldl insertGroup []

/-- Result record of RedactionProcessor.process, restricted to the fields
the orchestrator and the claims read. -/
structure RedResult where
  appliedIds : List Nat
  finalPageCount : Int
deriving DecidableEq, Repr

/-- Page rasterization (redaction_processor.py _rasterize_page): the page
content is replaced by an image; the page count does not change. -/
def rasterizePage (p : PdfPage) : PdfPage := { p with rasterized := true }

/-- The per-page loop of RedactionProcessor.process (lines 63-93): a group
whose page number is not below the page count is skipped; within a group
each redaction is applied unless the engine raises on it (applyFails); a
page with at least one applied redaction is rasterized. -/
def redactionFold (pdf : Pdf) : List (Nat × List Redaction) → Pdf × List Nat
  | [] => (pdf, [])
  | (p, grp) :: rest =>
      if p < pdf.length then
        let applied := (grp.filter fun r => !r.applyFails).map (fun r => r.id)
        let pdf' := if applied.isEmpty then pdf
                    else pdf.set p (rasterizePage (pdf.getD p default))
        let next := redactionFold pdf' rest
        (next.1, applied ++ next.2)
      else redactionFold pdf rest

/-- RedactionProcessor.process (redaction_processor.py lines 21-117):
apply redactions page by page, then mark EVERY input redaction row as
applied (lines 95-100), regardless of skips or per-row failures. -/
def redactionProcess (pdf : Pdf) (reds : List Redaction) (st : St) :
    Pdf × RedResult × St :=
  if reds.isEmpty then (pdf, { appliedIds := [], finalPageCount := pdf.length }, st)
  else
    let groups := groupByPage reds
    let folded := redactionFold pdf groups
    let st := reds.foldl (fun s r => dbMarkRedactionApplied r.id s) st
    (folded.1, { appliedIds := folded.2, finalPageCount := pdf.length }, st)

/-- RotationProcessor._validate_rotation (rotation_processor.py lines
117-138): page index an integer in range, angle among 0/90/180/270. -/
def validRotation (r : Rotation) (n : Int) : Bool :=
  (0 ≤ r.pageIndex && r.pageIndex < n) &&
    (r.rotate == 0 || r.rotate == 90 || r.rotate == 180 || r.rotate == 270)

/-- The rotation loop (rotation_processor.py lines 63-92): set_rotation is
absolute; both branches set the page rotation to the given angle. -/
def applyRotations (pdf : Pdf) : List Rotation → Pdf
  | [] => pdf
  | r :: rest =>
      applyRotations
        (pdf.set r.pageIndex.toNat { pdf.getD r.pageIndex.toNat default with rot := r.rotate })
        rest

structure RotResult where
  finalPageCount : Int
deriving DecidableEq, Repr

/-- RotationProcessor.process (rotation_processor.py lines 21-115):
invalid rows are skipped; valid rotations are applied in order; no
database write is performed (lines 94-101 are a no-op). -/
def rotationProcess (pdf : Pdf) (rots : List Rotation) (st : St) :
    Pdf × RotResult × St :=
  if rots.isEmpty then (pdf, { finalPageCount := pdf.length }, st)
  else
    let valid := rots.filter fun r => validRotation r (pdf.length : Int)
    (applyRotations pdf valid, { finalPageCount := pdf.length }, st)

/-- DeletionProcessor._validate_page_deletion (deletion_processor.py lines
142-163): the page index is an integer in the range of the document. -/
def validDeletion (d : Deletion) (n : Int) : Bool :=
  0 ≤ d.pageIndex && d.pageIndex < n

/-- The page indices of the valid deletion rows, in input order
(deletion_processor.py lines 53-68). -/
def validDeletionIdxs (dels : List Deletion) (n : Int) : List Int :=
  (dels.filter fun d => validDeletion d n).map fun d => d.pageIndex

/-- The number of distinct valid deletion indices (the claims call this
the count of valid, deduplicated deletions). -/
def distinctValidCount (dels : List Deletion) (n : Int) : Nat :=
  (dedup (validDeletionIdxs dels n)).length

/-- The deletion loop (deletion_processor.py lines 100-108): iterate the
descending index list, delete when the index is still within bounds. -/
def delLoop (pdf : Pdf) : List Int → Pdf × Nat
  | [] => (pdf, 0)
  | i :: rest =>
      if i < (pdf.length : Int) then
        let next := delLoop (pdf.eraseIdx i.toNat) rest
        (next.1, next.2 + 1)
      else delLoop pdf rest

/-- Result record of DeletionProcessor.process, restricted to the fields
the orchestrator and the claims read. -/
structure DelResult where
  totalDeletions : Nat
  originalPageCount : Int
  deletedPages : List Int
  finalPageCount : Int
  documentDeleted : Bool
deriving DecidableEq, Repr

/-- DeletionProcessor.process (deletion_processor.py lines 21-140):
validate, deduplicate and sort the indices descending; when they reach
every page, tombstone the document WITHOUT touching the PDF; otherwise
delete descending, update the stored page count when it changed, and mark
each valid deletion row processed. -/
def deletionProcess (imageId : Nat) (pdf : Pdf) (dels : List Deletion) (st : St) :
    Pdf × DelResult × St :=
  if dels.isEmpty then
    (pdf, { totalDeletions := 0, originalPageCount := pdf.length,
            deletedPages := [], finalPageCount := 0, documentDeleted := false }, st)
  else
    let n : Int := pdf.length
    let validIdxs := validDeletionIdxs dels n
    let pagesToDelete := sortDesc (dedup validIdxs)
    if pdf.length ≤ pagesToDelete.length then
      let st := dbMarkImageDeleted imageId st
      (pdf, { totalDeletions := dels.length, originalPageCount := n,
              deletedPages := validIdxs, finalPageCount := 0,
              documentDeleted := true }, st)
    else if pagesToDelete.isEmpty then
      (pdf, { totalDeletions := dels.length, originalPageCount := n,
              deletedPages := validIdxs, finalPageCount := n,
              documentDeleted := false }, st)
    else
      let looped := delLoop pdf pagesToDelete
      let pdf' := looped.1
      let fpc : Int := pdf'.length
      let st := if fpc ≠ n then dbUpdatePageCount imageId fpc st else st
      let st := dels.foldl
        (fun s d => if d.pageIndex ∈ validIdxs
                    then dbMarkPageDeletionProcessed d.id s else s) st
      (pdf', { totalDeletions := dels.length, originalPageCount := n,
               deletedPages := validIdxs, finalPageCount := fpc,
               documentDeleted := false }, st)

/-- SplittingProcessor._determine_split_strategy (splitting_processor.py
lines 83-91): a single break at page 0 means rename only. -/
def determineSplitStrategy (sorted : List Bookmark) : String :=
  match sorted with
  | [b] => if b.pageIndex = 0 then "rename_only" else "full_split"
  | _ => "full_split"

/-- The lookahead loop of _calculate_split_ranges (lines 203-206): each
break starts a range ending at the next break or at the page count. -/
def splitRangesAux (totalPages : Int) : List Bookmark → List (Int × Int)
  | [] => []
  | [b] => [(b.pageIndex, totalPages)]
  | b :: b2 :: rest => (b.pageIndex, b2.pageIndex) :: splitRangesAux totalPages (b2 :: rest)

/-- SplittingProcessor._calculate_split_ranges (lines 193-208): a front
section [0, firstBreak) when the first break is after page 0, then one
range per break. -/
def calculateSplitRanges (breaks : List Bookmark) (totalPages : Int) : List (Int × Int) :=
  match breaks with
  | [] => []
  | b :: _ =>
      (if b.pageIndex > 0 then [((0 : Int), b.pageIndex)] else []) ++
        splitRangesAux totalPages breaks

/-- SplittingProcessor._find_break_for_range (lines 210-216). -/
def findBreakForRange (breaks : List Bookmark) (startPage : Int) : Option Bookmark :=
  breaks.find? fun b => b.pageIndex == startPage

/-- fitz insert_pdf(from_page=s, to_page=e-1): the page subsequence
[s, e) of the document. -/
def extractRange (pdf : Pdf) (s e : Int) : Pdf :=
  (pdf.drop s.toNat).take (e - s).toNat

/-- _save_split_to_s3 (splitting_processor.py lines 253-275): the split
content goes to the Original, Processing and Production keys of the new
id, under the original document's path fragment. -/
def saveSplitToS3 (newId : Nat) (content : Pdf) (orig : ImageRecord) (st : St) : St :=
  let st := s3upload content (mkKey "Original" orig.path newId) st
  let st := s3upload content (mkKey "Processing" orig.path newId) st
  s3upload content (mkKey "Production" orig.path newId) st

/-- Entry of result splitDocuments (splitting_processor.py lines 161-168). -/
structure SplitDoc where
  imageId : Nat
  pageRange : Int × Int
  pageCount : Int
  documentType : Nat
  splitType : String
  sourceBreakId : Option Nat
deriving DecidableEq, Repr

/-- Result record of SplittingProcessor.process, restricted to the fields
the orchestrator and the claims read. -/
structure SplitResult where
  newImageIds : List Nat
  splitDocuments : List SplitDoc
  originalImageId : Nat
  originalPageCount : Int
  splitStrategy : String
  operationType : String
  newDocumentType : Option Nat
deriving DecidableEq, Repr

/-- The per-range loop of _handle_full_split (splitting_processor.py lines
136-174): find the break starting the range (none for the front section),
build the split PDF, insert the row, write the three object-store copies,
and when a break matched mark it processed with the new id. -/
def splitFold (rec : ImageRecord) (pdf : Pdf) (sorted : List Bookmark) :
    List (Int × Int) → St → List Nat × List SplitDoc × St
  | [], st => ([], [], st)
  | (s, e) :: rest, st =>
      let brk? := findBreakForRange sorted s
      let docTypeId := match brk? with
        | some b => b.imageDocumentTypeId
        | none => rec.docTypeManualId
      let docDate := match brk? with
        | some b => b.documentDate
        | none => rec.documentDate
      let comments := match brk? with
        | some b => b.comments.getD ""
        | none => rec.comments.getD ""
      let splitType := match brk? with
        | some _ => "page_break"
        | none => "front_section"
      let content := extractRange pdf s e
      let created := dbCreateSplitImage rec docTypeId (e - s) (s, e) docDate comments splitType st
      let newId := created.1
      let st := saveSplitToS3 newId content rec created.2
      let st := match brk? with
        | some b => dbMarkBookmarkProcessed b.id newId st
        | none => st
      let next := splitFold rec pdf sorted rest st
      (newId :: next.1,
       ({ imageId := newId, pageRange := (s, e), pageCount := e - s,
          documentType := docTypeId, splitType := splitType,
          sourceBreakId := brk?.map fun b => b.id } : SplitDoc) :: next.2.1,
       next.2.2)

/-- _handle_rename_only (splitting_processor.py lines 93-119): update the
source row's type/date/comments from the break and mark the break
processed with the source's own id; no rows are inserted. -/
def handleRenameOnly (rec : ImageRecord) (b : Bookmark) (base : SplitResult) (st : St) :
    SplitResult × St :=
  let st := dbUpdateImageDocumentType rec.id b.imageDocumentTypeId b.documentDate b.comments st
  let st := dbMarkBookmarkProcessed b.id rec.id st
  ({ base with operationType := "rename_only",
               newDocumentType := some b.imageDocumentTypeId }, st)

/-- _handle_full_split (splitting_processor.py lines 121-191): compute the
ranges, create one document per range, then append one SplitLog row per
produced document. -/
def handleFullSplit (rec : ImageRecord) (pdf : Pdf) (sorted : List Bookmark)
    (base : SplitResult) (st : St) : SplitResult × St :=
  let ranges := calculateSplitRanges sorted (pdf.length : Int)
  let folded := splitFold rec pdf sorted ranges st
  let newIds := folded.1
  let st := newIds.foldl (fun s nid => dbCreateSplitLog rec.id nid s) folded.2.2
  ({ base with newImageIds := newIds, splitDocuments := folded.2.1,
               operationType := "full_split" }, st)

/-- Placeholder bookmark for headD; never used on the taken branch because
the rename strategy implies the sorted list is a singleton. -/
def defaultBookmark : Bookmark :=
  { id := 0, pageIndex := 0, imageDocumentTypeId := 0,
    documentDate := none, comments := none }

/-- SplittingProcessor.process (splitting_processor.py lines 23-81): sort
the breaks, pick the strategy, dispatch. -/
def splittingProcess (rec : ImageRecord) (pdf : Pdf) (pageBreaks : List Bookmark)
    (st : St) : SplitResult × St :=
  let base : SplitResult :=
    { newImageIds := [], splitDocuments := [], originalImageId := rec.id,
      originalPageCount := pdf.length, splitStrategy := "",
      operationType := "", newDocumentType := none }
  if pageBreaks.isEmpty then (base, st)
  else
    let sorted := sortBreaks pageBreaks
    let strat := determineSplitStrategy sorted
    let base := { base with splitStrategy := strat }
    if strat = "rename_only" then
      handleRenameOnly rec (sorted.headD defaultBookmark) base st
    else handleFullSplit rec pdf sorted base st

/-- The four edit collections loaded from the database
(manipulation_orchestrator.py lines 53-58). -/
structure Manips where
  redactions : List Redaction
  rotations : List Rotation
  deletions : List Deletion
  pageBreaks : List Bookmark
deriving Repr

/-- Total number of pending edits (manipulation_orchestrator.py line 66). -/
def totalManips (m : Manips) : Nat :=
  m.redactions.length + m.rotations.length + m.deletions.length + m.pageBreaks.length

/-- Errors the pipeline raises: ValueError (record or object missing) and
the TimeoutError of the single deadline check. -/
inductive PErr where
  | valueError
  | timeoutError
deriving DecidableEq, Repr

/-- Result record of process_document_manipulations, restricted to the
fields the handler and the claims read. -/
structure OrchResult where
  finalPageCount : Int := 0
  operationsApplied : List String := []
  splitImages : List Nat := []
  deletionResult : Option DelResult := none
  splitResult : Option SplitResult := none
deriving DecidableEq, Repr

/-- Ambient wall-clock observations: the elapsed seconds at the moments
the orchestrator could look at the clock.  The source reads the clock for
budget purposes exactly once, between the redaction and rotation stages
(manipulation_orchestrator.py line 117); the other fields record the time
at the later stage boundaries and before the final object-store write,
where no check exists. -/
structure Clock where
  afterRedactions : Nat
  afterRotations : Nat
  afterDeletions : Nat
  beforeUpload : Nat
deriving DecidableEq, Repr

/-- Backup step (manipulation_orchestrator.py lines 88-98): when any of
redactions, rotations or deletions is pending, the fetched bytes are
written to the RedactOriginal key before mutation. -/
def stageBackup (m : Manips) (rec : ImageRecord) (imageId : Nat) (pdfBytes : Pdf)
    (st : St) : St :=
  if !m.redactions.isEmpty || !m.rotations.isEmpty || !m.deletions.isEmpty
  then s3upload pdfBytes (mkKey "RedactOriginal" rec.path imageId) st
  else st

/-- Redaction step of the orchestrator (lines 103-114). -/
def stageRedactions (reds : List Redaction) (pdf : Pdf) (st : St) :
    Pdf × Option RedResult × St :=
  if reds.isEmpty then (pdf, none, st)
  else
    let r := redactionProcess pdf reds st
    (r.1, some r.2.1, r.2.2)

/-- Rotation step of the orchestrator (lines 120-131). -/
def stageRotations (rots : List Rotation) (pdf : Pdf) (st : St) : Pdf × St :=
  if rots.isEmpty then (pdf, st)
  else
    let r := rotationProcess pdf rots st
    (r.1, r.2.2)

/-- Deletion step of the orchestrator (lines 133-145). -/
def stageDeletions (imageId : Nat) (dels : List Deletion) (pdf : Pdf) (st : St) :
    Pdf × Option DelResult × St :=
  if dels.isEmpty then (pdf, none, st)
  else
    let r := deletionProcess imageId pdf dels st
    (r.1, some r.2.1, r.2.2)

/-- result.get('finalPageCount', 0): the deletion stage's reported count,
or 0 when the stage did not run (manipulation_orchestrator.py line 144). -/
def fpcOf (delRes? : Option DelResult) : Int :=
  match delRes? with
  | some r => r.finalPageCount
  | none => 0

/-- The save-back tail of the orchestrator (lines 169-175): write the
buffer to the Processing key and persist a nonzero changed page count. -/
def stageSaveBack (imageId : Nat) (rec : ImageRecord) (procKey : String) (pdf : Pdf)
    (fpc : Int) (st : St) : St :=
  let st := s3upload pdf procKey st
  if fpc ≠ 0 && fpc ≠ rec.pageCount then dbUpdatePageCount imageId fpc st else st

/-- The operations-applied list accumulated by the orchestrator. -/
def opsOf (m : Manips) : List String :=
  (if m.redactions.isEmpty then [] else ["redactions"]) ++
  (if m.rotations.isEmpty then [] else ["rotations"]) ++
  (if m.deletions.isEmpty then [] else ["deletions"])

/-- ManipulationOrchestrator.process_document_manipulations
(manipulation_orchestrator.py lines 31-184) from the point the record and
the edits are in hand: download the working copy from the Processing key,
back it up to RedactOriginal when a file manipulation is pending, run
redactions, perform the single deadline check, run rotations, deletions
and splitting; when splitting produced new ids the source is marked
Obsolete and the function returns WITHOUT writing the working copy back,
otherwise the buffer is written back to the Processing key and a nonzero
changed page count is persisted. -/
def processDocumentManipulations (imageId : Nat) (m : Manips)
    (elapsedAtCheck : Nat) (timeoutSeconds : Nat) (st : St) :
    Except PErr OrchResult × St :=
  match getImageRecord imageId st with
  | none => (Except.error PErr.valueError, st)
  | some rec =>
      if totalManips m = 0 then (Except.ok {}, st)
      else
        let procKey := mkKey "Processing" rec.path imageId
        let dl := s3download procKey st
        match dl.1, dl.2 with
        | none, st => (Except.error PErr.valueError, st)
        | some pdfBytes, st =>
            let st := stageBackup m rec imageId pdfBytes st
            let red := stageRedactions m.redactions pdfBytes st
            let pdf1 := red.1
            let st := red.2.2
            if (elapsedAtCheck : Int) > (timeoutSeconds : Int) - 60 then
              (Except.error PErr.timeoutError, st)
            else
              let rot := stageRotations m.rotations pdf1 st
              let pdf2 := rot.1
              let st := rot.2
              let del := stageDeletions imageId m.deletions pdf2 st
              let pdf3 := del.1
              let delRes? := del.2.1
              let st := del.2.2
              let fpc := fpcOf delRes?
              if m.pageBreaks.isEmpty then
                let st := stageSaveBack imageId rec procKey pdf3 fpc st
                (Except.ok { finalPageCount := fpc, operationsApplied := opsOf m,
                             splitImages := [], deletionResult := delRes?,
                             splitResult := none }, st)
              else
                let sp := splittingProcess rec pdf3 m.pageBreaks st
                let splitRes := sp.1
                let st := sp.2
                let ops4 := opsOf m ++ ["splitting"]
                if !splitRes.newImageIds.isEmpty then
                  let st := dbUpdateImageStatus imageId "Obsolete" st
                  (Except.ok { finalPageCount := fpc, operationsApplied := ops4,
                               splitImages := splitRes.newImageIds,
                               deletionResult := delRes?,
                               splitResult := some splitRes }, st)
                else
                  let st := stageSaveBack imageId rec procKey pdf3 fpc st
                  (Except.ok { finalPageCount := fpc, operationsApplied := ops4,
                               splitImages := [], deletionResult := delRes?,
                               splitResult := some splitRes }, st)

/-- Health-check result, restricted to what the embedding can observe. -/
structure HealthResult where
  dbFound : Bool
  s3Exists : Option Bool
deriving DecidableEq, Repr

/-- ManipulationOrchestrator.perform_health_check (lines 186-256): read
the record, head the Processing object when the record exists; all
failures are caught internally, so the operation never raises and
performs no database write. -/
def performHealthCheck (imageId : Nat) (st : St) : HealthResult × St :=
  match getImageRecord imageId st with
  | some rec =>
      let ex := s3exists (mkKey "Processing" rec.path imageId) st
      ({ dbFound := true, s3Exists := some ex.1 }, ex.2)
  | none => ({ dbFound := false, s3Exists := none }, st)

/-- Invocation payload after JSON parsing (main.py lines 42-54): a missing
imageId is encoded as 0 and a missing operation as the empty string, both
falsy in the source's checks. -/
structure Event where
  operation : String
  imageId : Nat
  timeoutSeconds : Nat := 840
deriving DecidableEq, Repr

/-- Invocation response, restricted to the fields the claims read. -/
structure LambdaOut where
  statusCode : Nat
  result : Option OrchResult
deriving DecidableEq, Repr

/-- lambda_handler (main.py lines 24-135): validate, set the document
status to InWorkman, route the operation, and on success set the status
to NeedsProcessing UNCONDITIONALLY; any raised error goes through
handle_processing_error (main.py lines 137-156), which resets the status
to NeedsImageManipulation. -/
def lambdaHandler (ev : Event) (m : Manips) (elapsedAtCheck : Nat) (st : St) :
    LambdaOut × St :=
  if ev.imageId = 0 then ({ statusCode := 500, result := none }, st)
  else if ev.operation = "" then ({ statusCode := 500, result := none }, st)
  else
    let st := dbUpdateImageStatus ev.imageId "InWorkman" st
    if ev.operation = "process_manipulations" then
      match processDocumentManipulations ev.imageId m elapsedAtCheck ev.timeoutSeconds st with
      | (Except.ok r, st) =>
          let st := dbUpdateImageStatus ev.imageId "NeedsProcessing" st
          ({ statusCode := 200, result := some r }, st)
      | (Except.error _, st) =>
          let st := dbUpdateImageStatus ev.imageId "NeedsImageManipulation" st
          ({ statusCode := 500, result := none }, st)
    else if ev.operation = "health_check" then
      let hc := performHealthCheck ev.imageId st
      let st := dbUpdateImageStatus ev.imageId "NeedsProcessing" hc.2
      ({ statusCode := 200, result := none }, st)
    else
      let st := dbUpdateImageStatus ev.imageId "NeedsImageManipulation" st
      ({ statusCode := 500, result := none }, st)

/-- The handler under the full clock: the budget is consulted only through
the one field the source actually reads. -/
def lambdaHandlerC (ev : Event) (m : Manips) (c : Clock) (st : St) : LambdaOut × St :=
  lambdaHandler ev m c.afterRedactions st

/-- The sequence of ImageStatusTypeID values written during a trace. -/
def statusWrites (tr : List DbEv) : List Nat :=
  tr.filterMap fun e =>
    match e with
    | DbEv.write (DbWrite.setStatus _ sid) => some sid
    | _ => none

/-- Number of transaction commits in a trace. -/
def commitCount (tr : List DbEv) : Nat :=
  (tr.filter fun e =>
    match e with
    | DbEv.commit => true
    | _ => false).length

/-- The events after the first occurrence of the given write. -/
def afterFirstWrite (tr : List DbEv) (w : DbWrite) : List DbEv :=
  (tr.dropWhile fun e => e != DbEv.write w).drop 1

/-- Whether a commit occurs strictly between the first occurrence of one
write and the following occurrence of another: when true, the first write
is committed in an earlier transaction than the second. -/
def commitBetween (tr : List DbEv) (w₁ w₂ : DbWrite) : Bool :=
  ((afterFirstWrite tr w₁).takeWhile fun e => e != DbEv.write w₂).any
    fun e => e == DbEv.commit

/-- A trace in which every SQL write is immediately followed by the commit
of its own transaction: nothing is ever grouped with a later write. -/
inductive PairedTrace : List DbEv → Prop
  | nil : PairedTrace []
  | cons (w : DbWrite) {t : List DbEv} :
      PairedTrace t → PairedTrace (DbEv.write w :: DbEv.commit :: t)

/-- The range list is a contiguous, non-overlapping cover of [lo, hi):
each range starts where the previous ended, is non-reversed, and the last
ends at hi. -/
def coversRange : List (Int × Int) → Int → Int → Bool
  | [], lo, hi => lo == hi
  | (a, b) :: rest, lo, hi => a == lo && a ≤ b && coversRange rest b hi

/-- Sum of the signed lengths of a range list. -/
def rangeLenSum (rs : List (Int × Int)) : Int :=
  (rs.map fun r => r.2 - r.1).sum

/-- The stage prefixes the code actually uses. -/
def allowedStages : List String := ["Original", "Processing", "Production", "RedactOriginal"]

/-- The stage prefixes named by the specification (and by claim C8). -/
def claimedStages : List String := ["IOriginal", "IProcessing", "Production", "RedactOriginal"]

/-- The key decomposes as stage/pathFragment/id/id.pdf with a stage among
the code's prefixes. -/
def StdKey (k : String) : Prop :=
  ∃ s p i, s ∈ allowedStages ∧ k = mkKey s p i

/-- The key decomposes as stage/pathFragment/id/id.pdf with a stage among
the specification's prefixes. -/
def ClaimKey (k : String) : Prop :=
  ∃ s p i, s ∈ claimedStages ∧ k = mkKey s p i

/-- All object-store keys a state has touched. -/
def allKeys (st : St) : List String :=
  st.s3ReadKeys ++ st.s3WriteKeys ++ st.s3HeadKeys

/-- Every touched key is standard. -/
def KeysOk (st : St) : Prop := ∀ k ∈ allKeys st, StdKey k

/-- One pipeline step relates two states by appending to the traces: the
database trace grows by individually committed writes only, and the
object-store traces grow by standard keys only. -/
def StepOk (s s' : St) : Prop :=
  (∃ t, s'.dbTrace = s.dbTrace ++ t ∧ PairedTrace t) ∧
  (∃ r, s'.s3ReadKeys = s.s3ReadKeys ++ r ∧ ∀ k ∈ r, StdKey k) ∧
  (∃ w, s'.s3WriteKeys = s.s3WriteKeys ++ w ∧ ∀ k ∈ w, StdKey k) ∧
  (∃ h, s'.s3HeadKeys = s.s3HeadKeys ++ h ∧ ∀ k ∈ h, StdKey k)

/-- Initial state of an invocation: the source row, the persisted edit
rows, the object store, and empty traces. -/
def initSt (src : ImageRecord) (redRows : List RedRow) (bookRows : List BookmarkRow)
    (store : List (String × Pdf)) (nextId : Nat) : St :=
  { src := src, redRows := redRows, bookRows := bookRows, splitRows := [],
    splitLogs := [], nextImageId := nextId, dbTrace := [], s3Store := store,
    s3ReadKeys := [], s3WriteKeys := [], s3HeadKeys := [] }

/-- The pending-redaction query of get_pending_redactions (db_manager.py
lines 111-133): rows not deleted and not applied. -/
def getPendingRedactions (rows : List RedRow) : List RedRow :=
  rows.filter fun r => !r.deleted && !r.applied

/-- String contents as a character list. -/
def strData (s : String) : List Char := s.data

/-- The list 0, 1, ..., n-1 over the integers. -/
def intRange (n : Nat) : List Int := List.map (fun k : Nat => (k : Int)) (List.range n)

/-- The split images reported in a handler response. -/
def outSplitImages (o : LambdaOut) : List Nat :=
  match o.result with
  | some r => r.splitImages
  | none => []

/-- The deletion-stage result reported in a handler response. -/
def outDeletionResult (o : LambdaOut) : Option DelResult :=
  match o.result with
  | some r => r.deletionResult
  | none => none

/-! Concrete fixtures: a four-page document with id 7 under path fragment
LOANA, its working copy present at the Processing key, one persisted page
break at index 2, and the invocations the concrete theorems evaluate. -/

def pgA : PdfPage := {}

def pdfN (n : Nat) : Pdf := List.replicate n pgA

def srcA : ImageRecord :=
  { id := 7, path := "LOANA", bucketPfx := "bkt", imageStatusTypeId := 3,
    docTypeManualId := 11, pageCount := 4, deleted := false,
    documentDate := none, comments := none }

def bkA : Bookmark :=
  { id := 21, pageIndex := 2, imageDocumentTypeId := 42,
    documentDate := none, comments := none }

def procKeyA : String := mkKey "Processing" "LOANA" 7

def stA : St := initSt srcA [] [⟨bkA, none, false⟩] [(procKeyA, pdfN 4)] 100

def evA : Event := { operation := "process_manipulations", imageId := 7 }

/-- A full-split invocation: one break at index 2 on four pages. -/
def manSplitA : Manips :=
  { redactions := [], rotations := [], deletions := [], pageBreaks := [bkA] }

def runSplitA : LambdaOut × St := lambdaHandler evA manSplitA 0 stA

/-- A delete-every-page invocation: deletions for all four pages. -/
def manDelAllA : Manips :=
  { redactions := [], rotations := [], deletions := [⟨31, 0⟩, ⟨32, 1⟩, ⟨33, 2⟩, ⟨34, 3⟩],
    pageBreaks := [] }

def runDelAllA : LambdaOut × St := lambdaHandler evA manDelAllA 0 stA

/-- A clock on which the budget is exhausted at every point after the
single check: 0 seconds have elapsed at the check, 900 at the later stage
boundaries and before the final write, against the default 840 second
budget. -/
def clockLateA : Clock :=
  { afterRedactions := 0, afterRotations := 900, afterDeletions := 900,
    beforeUpload := 900 }

def runLateA : LambdaOut × St := lambdaHandlerC evA manDelAllA clockLateA stA

def evHealthA : Event := { operation := "health_check", imageId := 7 }

def runHealthA : LambdaOut × St := lambdaHandler evHealthA manSplitA 0 stA

/-- A break at index 0 carrying a date and comments (rename-only case). -/
def bkR : Bookmark :=
  { id := 61, pageIndex := 0, imageDocumentTypeId := 42,
    documentDate := some 20240101, comments := some "renamed" }

/-- A redaction whose page is outside the four-page document. -/
def redOutOfRange : Redaction := { id := 51, pageNumber := 9, applyFails := false }

/-- A redaction on which the PDF engine raises. -/
def redFailing : Redaction := { id := 52, pageNumber := 0, applyFails := true }

/-- State whose redaction rows are pending for ids 51 and 52. -/
def stRed : St :=
  initSt srcA [⟨51, false, false⟩, ⟨52, false, false⟩] [] [(procKeyA, pdfN 4)] 100

/-- State holding the rename-only bookmark row. -/
def stB : St := initSt srcA [] [⟨bkR, none, false⟩] [(procKeyA, pdfN 4)] 100

end PdfProc

namespace PdfProc

/-! Helper lemmas. -/

theorem strData_append (a b : String) : strData (a ++ b) = strData a ++ strData b := rfl

/-- No string decomposes as a key whose stage is one of the
specification's prefixes while beginning with the character sequence
Processing/ - the first differing character rules each prefix out. -/
theorem not_claimKey_procKeyA : ¬ ClaimKey procKeyA := by
  have hlit : procKeyA = "Processing/LOANA/7/7.pdf" := by decide
  rw [hlit]
  rintro ⟨s, p, i, hs, hk⟩
  simp [claimedStages] at hs
  rcases hs with h | h | h | h <;> subst h <;>
    simp only [mkKey, ← String.append_assoc] at hk <;>
    have h2 := congrArg strData hk <;>
    simp only [strData_append] at h2
  · have h3 := congrArg (fun l => l.headD 'x') h2
    simp [strData] at h3
  · have h3 := congrArg (fun l => l.headD 'x') h2
    simp [strData] at h3
  · have h3 := congrArg (fun l => l.getD 3 'x') h2
    simp [strData] at h3
  · have h3 := congrArg (fun l => l.headD 'x') h2
    simp [strData] at h3

/-- C1 (code_bug evidence): a successful process_manipulations invocation
whose split stage produced two derived documents (ids 100 and 101).  The
orchestrator writes status 15 (Obsolete), but lambda_handler then
unconditionally writes 3 (NeedsProcessing), so the persisted status at
the end of the invocation is 3, not 15 as the claim states. -/
theorem C1_split_final_status_overwritten :
    runSplitA.1.statusCode = 200 ∧
    outSplitImages runSplitA.1 = [100, 101] ∧
    statusWrites runSplitA.2.dbTrace = [9, 15, 3] ∧
    runSplitA.2.src.imageStatusTypeId = 3 ∧ (3 : Nat) ≠ 15 := by decide

/-- C2 counterexample: deletions cover every page of the four-page
document; the row is tombstoned and the stage reports documentDeleted
with finalPageCount 0, yet the invocation still writes the processed PDF
to the source's Processing key, contradicting the claim that no such
object-store write occurs. -/
theorem C2_counterexample :
    runDelAllA.2.src.deleted = true ∧
    outDeletionResult runDelAllA.1 =
      some { totalDeletions := 4, originalPageCount := 4,
             deletedPages := [0, 1, 2, 3], finalPageCount := 0,
             documentDeleted := true } ∧
    procKeyA ∈ runDelAllA.2.s3WriteKeys := by decide

/-- C6 counterexample: in the concrete full-split run a commit occurs
strictly between the insert of the first derived row (id 100) and the
source's Obsolete status write, and the run commits 8 separate
transactions, so the split metadata writes do not commit together in a
single transaction. -/
theorem C6_counterexample :
    commitBetween runSplitA.2.dbTrace (DbWrite.insertImage 100)
      (DbWrite.setStatus 7 15) = true ∧
    commitCount runSplitA.2.dbTrace = 8 ∧ (8 : Nat) ≠ 1 := by decide

/-- C7 counterexample: on a run whose remaining budget is below the 60
second margin at the rotation/deletion boundary, at the deletion/split
boundary and before the final object-store write (900 seconds elapsed of
an 840 second budget), the pipeline neither raises a deadline error nor
resets the status: it completes with code 200 and performs the write,
because the only deadline check sits between the redaction and rotation
stages. -/
theorem C7_counterexample :
    (clockLateA.beforeUpload : Int) > (evA.timeoutSeconds : Int) - 60 ∧
    (clockLateA.afterRotations : Int) > (evA.timeoutSeconds : Int) - 60 ∧
    (clockLateA.afterDeletions : Int) > (evA.timeoutSeconds : Int) - 60 ∧
    runLateA.1.statusCode = 200 ∧
    procKeyA ∈ runLateA.2.s3WriteKeys ∧
    statusWrites runLateA.2.dbTrace = [9, 3] := by decide

/-- C8 counterexample: the working copy is fetched from the key
Processing/LOANA/7/7.pdf, which does not decompose under any of the
specification's stage prefixes (IOriginal, IProcessing, Production,
RedactOriginal); the code's stage prefix is Processing. -/
theorem C8_counterexample :
    procKeyA ∈ runSplitA.2.s3ReadKeys ∧ ¬ ClaimKey procKeyA :=
  ⟨by decide, not_claimKey_procKeyA⟩

/-! Lemmas on the Python sorted / set modelling. -/

theorem mem_insertDesc {a x : Int} {l : List Int} :
    a ∈ insertDesc x l ↔ a = x ∨ a ∈ l := by
  induction l with
  | nil => simp [insertDesc]
  | cons y ys ih =>
      simp only [insertDesc]
      split
      · simp [List.mem_cons]
      · simp only [List.mem_cons, ih]
        tauto

theorem perm_insertDesc (x : Int) (l : List Int) :
    List.Perm (insertDesc x l) (x :: l) := by
  induction l with
  | nil => exact List.Perm.refl _
  | cons y ys ih =>
      simp only [insertDesc]
      split
      · exact List.Perm.refl _
      · exact List.Perm.trans (List.Perm.cons y ih) (List.Perm.swap x y ys)

theorem perm_sortDesc (l : List Int) : List.Perm (sortDesc l) l := by
  induction l with
  | nil => exact List.Perm.refl _
  | cons x xs ih =>
      exact List.Perm.trans (perm_insertDesc x (sortDesc xs)) (List.Perm.cons x ih)

theorem pairwise_ge_insertDesc {x : Int} {l : List Int}
    (h : l.Pairwise (· ≥ ·)) : (insertDesc x l).Pairwise (· ≥ ·) := by
  induction l with
  | nil => simp [insertDesc]
  | cons y ys ih =>
      rw [List.pairwise_cons] at h
      simp only [insertDesc]
      split
      · rename_i hxy
        rw [List.pairwise_cons]
        refine ⟨?_, List.pairwise_cons.mpr h⟩
        intro a ha
        rcases List.mem_cons.mp ha with h' | h'
        · omega
        · exact le_trans (h.1 a h') hxy
      · rename_i hxy
        rw [List.pairwise_cons]
        refine ⟨?_, ih h.2⟩
        intro a ha
        rcases mem_insertDesc.mp ha with h' | h'
        · omega
        · exact h.1 a h'

theorem pairwise_ge_sortDesc (l : List Int) : (sortDesc l).Pairwise (· ≥ ·) := by
  induction l with
  | nil => simp [sortDesc]
  | cons x xs ih => exact pairwise_ge_insertDesc ih

theorem mem_dedup {a : Int} : ∀ {l : List Int}, a ∈ dedup l ↔ a ∈ l := by
  intro l
  induction l with
  | nil => simp [dedup]
  | cons x xs ih =>
      simp only [dedup]
      split
      · rename_i hx
        rw [ih]
        constructor
        · exact fun h => List.mem_cons_of_mem _ h
        · intro h
          rcases List.mem_cons.mp h with h' | h'
          · rw [h']; exact hx
          · exact h'
      · simp [List.mem_cons, ih]

theorem nodup_dedup : ∀ (l : List Int), (dedup l).Nodup := by
  intro l
  induction l with
  | nil => simp [dedup]
  | cons x xs ih =>
      simp only [dedup]
      split
      · exact ih
      · rename_i hx
        exact List.nodup_cons.mpr ⟨fun h => hx (mem_dedup.mp h), ih⟩

theorem length_sortDesc (l : List Int) : (sortDesc l).length = l.length :=
  (perm_sortDesc l).length_eq

theorem nodup_sortDesc {l : List Int} (h : l.Nodup) : (sortDesc l).Nodup :=
  ((perm_sortDesc l).nodup_iff).mpr h

theorem mem_sortDesc {a : Int} {l : List Int} : a ∈ sortDesc l ↔ a ∈ l :=
  (perm_sortDesc l).mem_iff

theorem pairwise_gt_of_ge_nodup : ∀ {l : List Int},
    l.Pairwise (· ≥ ·) → l.Nodup → l.Pairwise (· > ·) := by
  intro l
  induction l with
  | nil => simp
  | cons x xs ih =>
      intro hge hnd
      rw [List.pairwise_cons] at hge ⊢
      rw [List.nodup_cons] at hnd
      refine ⟨?_, ih hge.2 hnd.2⟩
      intro a ha
      have h1 := hge.1 a ha
      have h2 : x ≠ a := fun h => hnd.1 (h ▸ ha)
      omega

theorem length_intRange (n : Nat) : (intRange n).length = n := by
  simp [intRange]

theorem mem_intRange {i : Int} {n : Nat} : i ∈ intRange n ↔ 0 ≤ i ∧ i < (n : Int) := by
  constructor
  · intro hi
    rcases List.mem_map.mp hi with ⟨k, hk, rfl⟩
    have := List.mem_range.mp hk
    omega
  · intro ⟨h0, hlt⟩
    exact List.mem_map.mpr ⟨i.toNat, List.mem_range.mpr (by omega), by omega⟩

theorem nodup_intRange (n : Nat) : (intRange n).Nodup :=
  List.Nodup.map (fun a b h => by omega) (List.nodup_range n)

theorem length_le_of_nodup_bounded {l : List Int} {n : Nat} (hn : l.Nodup)
    (hb : ∀ i ∈ l, 0 ≤ i ∧ i < (n : Int)) : l.length ≤ n := by
  have hsub : l ⊆ intRange n := fun i hi => mem_intRange.mpr (hb i hi)
  have hle := (List.subperm_of_subset hn hsub).length_le
  rw [length_intRange] at hle
  exact hle

theorem le_length_of_surj_bounded {l : List Int} {n : Nat}
    (hcov : ∀ k : Nat, k < n → ((k : Int) ∈ l)) : n ≤ l.length := by
  have hsub : intRange n ⊆ l := by
    intro i hi
    rcases List.mem_map.mp hi with ⟨k, hk, rfl⟩
    exact hcov k (List.mem_range.mp hk)
  have hle := (List.subperm_of_subset (nodup_intRange n) hsub).length_le
  rw [length_intRange] at hle
  exact hle

theorem delLoop_length : ∀ (idxs : List Int) (pdf : Pdf),
    idxs.Pairwise (· > ·) → (∀ i ∈ idxs, 0 ≤ i ∧ i < (pdf.length : Int)) →
    (delLoop pdf idxs).1.length = pdf.length - idxs.length := by
  intro idxs
  induction idxs with
  | nil => intro pdf _ _; simp [delLoop]
  | cons i rest ih =>
      intro pdf hp hb
      have hi := hb i (List.mem_cons_self i rest)
      have hitoNat : i.toNat < pdf.length := by omega
      have hlen : (pdf.eraseIdx i.toNat).length + 1 = pdf.length :=
        List.length_eraseIdx_add_one hitoNat
      rw [List.pairwise_cons] at hp
      have hb' : ∀ j ∈ rest, 0 ≤ j ∧ j < ((pdf.eraseIdx i.toNat).length : Int) := by
        intro j hj
        have hji := hp.1 j hj
        have := hb j (List.mem_cons_of_mem i hj)
        omega
      have hrest := ih (pdf.eraseIdx i.toNat) hp.2 hb'
      simp only [delLoop, if_pos hi.2]
      rw [hrest]
      simp only [List.length_cons]
      omega

theorem validDeletionIdxs_bounds {dels : List Deletion} {n : Int} :
    ∀ i ∈ validDeletionIdxs dels n, 0 ≤ i ∧ i < n := by
  intro i hi
  rcases List.mem_map.mp hi with ⟨d, hd, rfl⟩
  have hv := (List.mem_filter.mp hd).2
  simp only [validDeletion, Bool.and_eq_true, decide_eq_true_eq] at hv
  exact hv

theorem pagesToDelete_bounds {dels : List Deletion} {n : Int} :
    ∀ i ∈ sortDesc (dedup (validDeletionIdxs dels n)), 0 ≤ i ∧ i < n := by
  intro i hi
  exact validDeletionIdxs_bounds i (mem_dedup.mp (mem_sortDesc.mp hi))

theorem pagesToDelete_length (dels : List Deletion) (n : Int) :
    (sortDesc (dedup (validDeletionIdxs dels n))).length =
      (dedup (validDeletionIdxs dels n)).length :=
  length_sortDesc _

theorem pagesToDelete_pairwise_gt {dels : List Deletion} {n : Int} :
    (sortDesc (dedup (validDeletionIdxs dels n))).Pairwise (· > ·) :=
  pairwise_gt_of_ge_nodup (pairwise_ge_sortDesc _) (nodup_sortDesc (nodup_dedup _))

/-- Delete-all short circuit of DeletionProcessor.process (lines 75-88):
when the valid, deduplicated indices reach every page, the PDF is not
touched, the result reports documentDeleted with finalPageCount 0, and
the only database effect is the tombstone. -/
theorem deletionProcess_deleteAll (imageId : Nat) (pdf : Pdf) (dels : List Deletion)
    (st : St) (h : dels ≠ [])
    (hcov : ∀ k : Nat, k < pdf.length → ((k : Int) ∈ validDeletionIdxs dels pdf.length)) :
    deletionProcess imageId pdf dels st =
      (pdf, { totalDeletions := dels.length, originalPageCount := pdf.length,
              deletedPages := validDeletionIdxs dels pdf.length, finalPageCount := 0,
              documentDeleted := true }, dbMarkImageDeleted imageId st) := by
  have hne : dels.isEmpty = false := by
    cases dels with
    | nil => exact absurd rfl h
    | cons a l => rfl
  have hcov' : ∀ k : Nat, k < pdf.length →
      ((k : Int) ∈ sortDesc (dedup (validDeletionIdxs dels pdf.length))) := by
    intro k hk
    exact mem_sortDesc.mpr (mem_dedup.mpr (hcov k hk))
  have hge : pdf.length ≤ (sortDesc (dedup (validDeletionIdxs dels pdf.length))).length :=
    le_length_of_surj_bounded hcov'
  simp only [deletionProcess, hne, Bool.false_eq_true, if_false, if_pos hge]

/-- Page-count arithmetic of DeletionProcessor.process: the reported
final page count is the original count minus the number of distinct valid
indices, and when the document was not tombstoned the returned PDF has
exactly that many pages. -/
theorem deletionProcess_spec (imageId : Nat) (pdf : Pdf) (dels : List Deletion)
    (st : St) (h : dels ≠ []) :
    ((deletionProcess imageId pdf dels st).2.1.finalPageCount
      = (pdf.length : Int) - distinctValidCount dels pdf.length) ∧
    ((deletionProcess imageId pdf dels st).2.1.documentDeleted = false →
      (((deletionProcess imageId pdf dels st).1.length : Int)
        = (deletionProcess imageId pdf dels st).2.1.finalPageCount)) := by
  have hne : dels.isEmpty = false := by
    cases dels with
    | nil => exact absurd rfl h
    | cons a l => rfl
  have hdlen : (dedup (validDeletionIdxs dels (pdf.length : Int))).length ≤ pdf.length :=
    length_le_of_nodup_bounded (nodup_dedup _)
      (fun i hi => validDeletionIdxs_bounds i (mem_dedup.mp hi))
  by_cases hall : pdf.length ≤ (sortDesc (dedup (validDeletionIdxs dels (pdf.length : Int)))).length
  · have hcount : distinctValidCount dels pdf.length = pdf.length := by
      have := pagesToDelete_length dels ((pdf.length : Int))
      unfold distinctValidCount
      omega
    simp only [deletionProcess, hne, Bool.false_eq_true, if_false, if_pos hall]
    constructor
    · rw [hcount]; omega
    · intro hfalse
      exact absurd hfalse (by simp)
  · by_cases hempty : (sortDesc (dedup (validDeletionIdxs dels (pdf.length : Int)))).isEmpty
    · have hzero : distinctValidCount dels pdf.length = 0 := by
        have h1 := List.isEmpty_iff.mp hempty
        have := pagesToDelete_length dels ((pdf.length : Int))
        unfold distinctValidCount
        rw [← this, h1]
        rfl
      simp only [deletionProcess, hne, Bool.false_eq_true, if_false, if_neg hall,
        hempty, if_true]
      rw [hzero]
      constructor
      · omega
      · exact fun _ => trivial
    · have hloop := delLoop_length (sortDesc (dedup (validDeletionIdxs dels (pdf.length : Int))))
        pdf pagesToDelete_pairwise_gt pagesToDelete_bounds
      have hlt : (sortDesc (dedup (validDeletionIdxs dels (pdf.length : Int)))).length < pdf.length := by
        omega
      have hcount := pagesToDelete_length dels ((pdf.length : Int))
      simp only [deletionProcess, hne, Bool.false_eq_true, if_false, if_neg hall,
        hempty, Bool.false_eq_true, if_false]
      constructor
      · rw [hloop]
        unfold distinctValidCount
        omega
      · exact fun _ => trivial

/-! Page-count preservation of the redaction and rotation stages. -/

theorem redactionFold_length : ∀ (groups : List (Nat × List Redaction)) (pdf : Pdf),
    (redactionFold pdf groups).1.length = pdf.length := by
  intro groups
  induction groups with
  | nil => intro pdf; rfl
  | cons g rest ih =>
      intro pdf
      rcases g with ⟨p, grp⟩
      simp only [redactionFold]
      split
      · split
        · exact ih pdf
        · rw [ih, List.length_set]
      · exact ih pdf

theorem redactionProcess_length (pdf : Pdf) (reds : List Redaction) (st : St) :
    (redactionProcess pdf reds st).1.length = pdf.length := by
  simp only [redactionProcess]
  split
  · rfl
  · exact redactionFold_length (groupByPage reds) pdf

theorem applyRotations_length : ∀ (rots : List Rotation) (pdf : Pdf),
    (applyRotations pdf rots).length = pdf.length := by
  intro rots
  induction rots with
  | nil => intro pdf; rfl
  | cons r rest ih =>
      intro pdf
      simp only [applyRotations]
      rw [ih, List.length_set]

theorem rotationProcess_length (pdf : Pdf) (rots : List Rotation) (st : St) :
    (rotationProcess pdf rots st).1.length = pdf.length := by
  simp only [rotationProcess]
  split
  · rfl
  · exact applyRotations_length _ pdf

/-! The split-stage sort: permutation and sortedness. -/

theorem mem_insertAsc {a b : Bookmark} {l : List Bookmark} :
    a ∈ insertAsc b l ↔ a = b ∨ a ∈ l := by
  induction l with
  | nil => simp [insertAsc]
  | cons y ys ih =>
      simp only [insertAsc]
      split
      · simp [List.mem_cons]
      · simp only [List.mem_cons, ih]
        tauto

theorem perm_insertAsc (b : Bookmark) (l : List Bookmark) :
    List.Perm (insertAsc b l) (b :: l) := by
  induction l with
  | nil => exact List.Perm.refl _
  | cons y ys ih =>
      simp only [insertAsc]
      split
      · exact List.Perm.refl _
      · exact List.Perm.trans (List.Perm.cons y ih) (List.Perm.swap b y ys)

theorem perm_sortBreaks (l : List Bookmark) : List.Perm (sortBreaks l) l := by
  induction l with
  | nil => exact List.Perm.refl _
  | cons b bs ih =>
      exact List.Perm.trans (perm_insertAsc b (sortBreaks bs)) (List.Perm.cons b ih)

theorem pairwise_le_insertAsc {b : Bookmark} {l : List Bookmark}
    (h : l.Pairwise fun x y => x.pageIndex ≤ y.pageIndex) :
    (insertAsc b l).Pairwise fun x y => x.pageIndex ≤ y.pageIndex := by
  induction l with
  | nil => simp [insertAsc]
  | cons y ys ih =>
      rw [List.pairwise_cons] at h
      simp only [insertAsc]
      split
      · rename_i hby
        rw [List.pairwise_cons]
        refine ⟨?_, List.pairwise_cons.mpr h⟩
        intro a ha
        rcases List.mem_cons.mp ha with h' | h'
        · subst h'; omega
        · have := h.1 a h'
          omega
      · rename_i hby
        rw [List.pairwise_cons]
        refine ⟨?_, ih h.2⟩
        intro a ha
        rcases mem_insertAsc.mp ha with h' | h'
        · subst h'; omega
        · exact h.1 a h'

theorem pairwise_le_sortBreaks (l : List Bookmark) :
    (sortBreaks l).Pairwise fun x y => x.pageIndex ≤ y.pageIndex := by
  induction l with
  | nil => simp [sortBreaks]
  | cons b bs ih => exact pairwise_le_insertAsc ih

theorem pairwise_lt_of_le_nodupKeys : ∀ {l : List Bookmark},
    (l.Pairwise fun x y => x.pageIndex ≤ y.pageIndex) →
    (l.map fun b => b.pageIndex).Nodup →
    l.Pairwise fun x y => x.pageIndex < y.pageIndex := by
  intro l
  induction l with
  | nil => simp
  | cons x xs ih =>
      intro hle hnd
      rw [List.pairwise_cons] at hle ⊢
      rw [List.map_cons, List.nodup_cons] at hnd
      refine ⟨?_, ih hle.2 hnd.2⟩
      intro a ha
      have h1 := hle.1 a ha
      have h2 : x.pageIndex ≠ a.pageIndex := by
        intro hEq
        exact hnd.1 (hEq ▸ List.mem_map.mpr ⟨a, ha, rfl⟩)
      omega

/-! Cover and length-sum of the computed split ranges. -/

theorem coversRange_splitRangesAux (n : Int) : ∀ (rest : List Bookmark) (b : Bookmark),
    ((b :: rest).Pairwise fun x y => x.pageIndex < y.pageIndex) →
    (∀ x ∈ b :: rest, x.pageIndex < n) →
    coversRange (splitRangesAux n (b :: rest)) b.pageIndex n = true := by
  intro rest
  induction rest with
  | nil =>
      intro b _ hb
      have := hb b (List.mem_cons_self b [])
      simp only [splitRangesAux, coversRange, Bool.and_eq_true, beq_iff_eq,
        decide_eq_true_eq, eq_self_iff_true, true_and, and_true]
      omega
  | cons b2 rest2 ih =>
      intro b hp hb
      rw [List.pairwise_cons] at hp
      have hlt : b.pageIndex < b2.pageIndex := hp.1 b2 (List.mem_cons_self b2 rest2)
      simp only [splitRangesAux, coversRange, Bool.and_eq_true, beq_iff_eq,
        decide_eq_true_eq, eq_self_iff_true, true_and, and_true]
      exact ⟨by omega, ih b2 hp.2 fun x hx => hb x (List.mem_cons_of_mem b hx)⟩

theorem rangeLenSum_cons (r : Int × Int) (rs : List (Int × Int)) :
    rangeLenSum (r :: rs) = (r.2 - r.1) + rangeLenSum rs := by
  simp [rangeLenSum]

theorem rangeLenSum_splitRangesAux (n : Int) : ∀ (rest : List Bookmark) (b : Bookmark),
    rangeLenSum (splitRangesAux n (b :: rest)) = n - b.pageIndex := by
  intro rest
  induction rest with
  | nil => intro b; simp [splitRangesAux, rangeLenSum]
  | cons b2 rest2 ih =>
      intro b
      simp only [splitRangesAux]
      rw [rangeLenSum_cons, ih b2]
      ring

theorem stageRedactions_length (reds : List Redaction) (pdf : Pdf) (st : St) :
    (stageRedactions reds pdf st).1.length = pdf.length := by
  simp only [stageRedactions]
  split
  · rfl
  · exact redactionProcess_length pdf reds st

theorem stageRotations_length (rots : List Rotation) (pdf : Pdf) (st : St) :
    (stageRotations rots pdf st).1.length = pdf.length := by
  simp only [stageRotations]
  split
  · rfl
  · exact rotationProcess_length pdf rots st

/-- C3: in full_split the computed ranges are the front-section range
plus one range per break, and for distinct break indices inside the
document they form a contiguous non-overlapping cover of the page
interval from 0 to the page count. -/
theorem C3_full_split_ranges_cover (bs : List Bookmark) (n : Int)
    (hne : bs ≠ [])
    (hnd : (bs.map fun b => b.pageIndex).Nodup)
    (hb : ∀ b ∈ bs, 0 ≤ b.pageIndex ∧ b.pageIndex < n) :
    coversRange (calculateSplitRanges (sortBreaks bs) n) 0 n = true := by
  have hperm := perm_sortBreaks bs
  have hndS : ((sortBreaks bs).map fun b => b.pageIndex).Nodup :=
    ((hperm.map fun b => b.pageIndex).nodup_iff).mpr hnd
  have hplt := pairwise_lt_of_le_nodupKeys (pairwise_le_sortBreaks bs) hndS
  have hbS : ∀ b ∈ sortBreaks bs, 0 ≤ b.pageIndex ∧ b.pageIndex < n :=
    fun b hbm => hb b (hperm.mem_iff.mp hbm)
  cases hsort : sortBreaks bs with
  | nil =>
      rw [hsort] at hperm
      exact absurd hperm.symm.eq_nil hne
  | cons b rest =>
      rw [hsort] at hplt hbS
      have hb0 := hbS b (List.mem_cons_self b rest)
      simp only [calculateSplitRanges]
      by_cases hpos : b.pageIndex > 0
      · rw [if_pos hpos]
        simp only [List.cons_append, List.nil_append, coversRange, Bool.and_eq_true,
          beq_iff_eq, decide_eq_true_eq, eq_self_iff_true, true_and, and_true]
        refine ⟨by omega, ?_⟩
        exact coversRange_splitRangesAux n rest b hplt
          (fun x hx => (hbS x hx).2)
      · rw [if_neg hpos]
        have hz : b.pageIndex = 0 := by omega
        simp only [List.nil_append]
        have := coversRange_splitRangesAux n rest b hplt (fun x hx => (hbS x hx).2)
        rw [hz] at this
        exact this

/-- C3 witness: one break at index 2 on four pages. -/
theorem C3_full_split_ranges_cover_witness :
    coversRange (calculateSplitRanges (sortBreaks [bkA]) 4) 0 4 = true :=
  C3_full_split_ranges_cover [bkA] 4 (by simp) (by simp)
    (by
      intro b hbm
      rw [List.mem_singleton] at hbm
      subst hbm
      decide)

/-- Characterization of a run whose record and working copy are present,
whose deadline check passes, and whose page-break list is empty: the run
succeeds, applies the three file stages in order, and saves the buffer
back to the Processing key. -/
theorem orch_noBreaks_eq
    {imageId : Nat} {m : Manips} {elapsed timeout : Nat} {st : St}
    {rec : ImageRecord} {pdf0 : Pdf}
    (hrec : getImageRecord imageId st = some rec)
    (htot : totalManips m ≠ 0)
    (hdl : st.s3Store.lookup (mkKey "Processing" rec.path imageId) = some pdf0)
    (hclk : ¬((elapsed : Int) > (timeout : Int) - 60))
    (hbrk : m.pageBreaks = []) :
    processDocumentManipulations imageId m elapsed timeout st =
      (let st1 := addReadKey (mkKey "Processing" rec.path imageId) st
       let st2 := stageBackup m rec imageId pdf0 st1
       let red := stageRedactions m.redactions pdf0 st2
       let rot := stageRotations m.rotations red.1 red.2.2
       let del := stageDeletions imageId m.deletions rot.1 rot.2
       let fpc := fpcOf del.2.1
       let stF := stageSaveBack imageId rec (mkKey "Processing" rec.path imageId) del.1 fpc del.2.2
       (Except.ok { finalPageCount := fpc, operationsApplied := opsOf m,
                    splitImages := [], deletionResult := del.2.1,
                    splitResult := none }, stF)) := by
  simp only [processDocumentManipulations, hrec, if_neg htot, s3download, hdl,
    hbrk, List.isEmpty_nil, if_true, if_neg hclk]

/-- When deletions are pending, the deletion step reports initial minus
distinct-valid as the final page count. -/
theorem fpc_stageDeletions (L : Nat) {imageId : Nat} {dels : List Deletion}
    {pdf2 : Pdf} {s : St} (hdels : dels ≠ []) (hlen : pdf2.length = L) :
    fpcOf (stageDeletions imageId dels pdf2 s).2.1 =
      (L : Int) - distinctValidCount dels L := by
  have hne : dels.isEmpty = false := by
    cases dels with
    | nil => exact absurd rfl hdels
    | cons a l => rfl
  simp only [stageDeletions, hne, Bool.false_eq_true, if_false, fpcOf]
  have h := (deletionProcess_spec imageId pdf2 dels s hdels).1
  rw [h, hlen]

/-- With no deletions the save-back stage stores the untouched buffer at
the Processing key. -/
theorem saveback_delEmpty_lookup (imageId : Nat) (rec : ImageRecord) (K : String)
    (pdf2 : Pdf) (s : St) :
    ((stageSaveBack imageId rec K (stageDeletions imageId [] pdf2 s).1
        (fpcOf (stageDeletions imageId [] pdf2 s).2.1)
        (stageDeletions imageId [] pdf2 s).2.2).s3Store.lookup K).map List.length =
      some pdf2.length := by
  have h1 : stageDeletions imageId [] pdf2 s = (pdf2, none, s) := rfl
  rw [h1]
  simp only [fpcOf, stageSaveBack]
  rw [if_neg (by simp)]
  simp [s3upload, List.lookup]

/-- C4: for a run with no page breaks the reported final page count is
the initial page count minus the number of distinct valid deletion
indices (and with no deletions at all, the written-back PDF keeps the
initial page count); the redaction and rotation stages never change the
page count; and the emitted split ranges have signed lengths summing to
the page count handed to the split stage. -/
theorem C4_page_count_conservation
    {imageId : Nat} {m : Manips} {elapsed timeout : Nat} {st : St}
    {rec : ImageRecord} {pdf0 : Pdf}
    (hrec : getImageRecord imageId st = some rec)
    (htot : totalManips m ≠ 0)
    (hdl : st.s3Store.lookup (mkKey "Processing" rec.path imageId) = some pdf0)
    (hclk : ¬((elapsed : Int) > (timeout : Int) - 60))
    (hbrk : m.pageBreaks = []) :
    (m.deletions ≠ [] →
      ∃ r stF, processDocumentManipulations imageId m elapsed timeout st =
          (Except.ok r, stF) ∧
        r.finalPageCount = (pdf0.length : Int) - distinctValidCount m.deletions pdf0.length) ∧
    (m.deletions = [] →
      ∃ r stF, processDocumentManipulations imageId m elapsed timeout st =
          (Except.ok r, stF) ∧
        (stF.s3Store.lookup (mkKey "Processing" rec.path imageId)).map List.length =
          some pdf0.length) ∧
    (∀ (p : Pdf) (rd : List Redaction) (s : St),
      (redactionProcess p rd s).1.length = p.length) ∧
    (∀ (p : Pdf) (rt : List Rotation) (s : St),
      (rotationProcess p rt s).1.length = p.length) ∧
    (∀ (bs : List Bookmark) (n : Int), bs ≠ [] →
      0 ≤ (bs.headD defaultBookmark).pageIndex →
      rangeLenSum (calculateSplitRanges bs n) = n) := by
  have heq := orch_noBreaks_eq hrec htot hdl hclk hbrk
  simp only [] at heq
  refine ⟨?_, ?_, redactionProcess_length, rotationProcess_length, ?_⟩
  · intro hdels
    refine ⟨_, _, heq, ?_⟩
    exact fpc_stageDeletions pdf0.length hdels
      (by rw [stageRotations_length, stageRedactions_length])
  · intro hdels
    refine ⟨_, _, ⟨heq, ?_⟩⟩
    rw [hdels]
    rw [saveback_delEmpty_lookup]
    congr 1
    rw [stageRotations_length, stageRedactions_length]
  · intro bs n hne h0
    cases hbs : bs with
    | nil => exact absurd hbs hne
    | cons b rest =>
        rw [hbs] at h0
        simp only [List.headD_cons] at h0
        simp only [calculateSplitRanges]
        by_cases hpos : b.pageIndex > 0
        · rw [if_pos hpos]
          simp only [List.cons_append, List.nil_append]
          rw [rangeLenSum_cons, rangeLenSum_splitRangesAux]
          ring
        · rw [if_neg hpos]
          have hz : b.pageIndex = 0 := by omega
          simp only [List.nil_append]
          rw [rangeLenSum_splitRangesAux, hz]
          ring

/-- C4 witness: the delete-every-page run on the four-page fixture. -/
theorem C4_page_count_conservation_witness :
    ∃ r stF, processDocumentManipulations 7 manDelAllA 0 840 stA =
        (Except.ok r, stF) ∧
      r.finalPageCount = ((pdfN 4).length : Int) -
        distinctValidCount manDelAllA.deletions (pdfN 4).length :=
  (C4_page_count_conservation
    ((by decide) : getImageRecord 7 stA = some srcA)
    ((by decide) : totalManips manDelAllA ≠ 0)
    ((by decide) : stA.s3Store.lookup (mkKey "Processing" srcA.path 7) = some (pdfN 4))
    ((by decide) : ¬(((0 : Nat) : Int) > ((840 : Nat) : Int) - 60))
    rfl).1 (by decide)

/-! State-component preservation lemmas used to track the source row and
the object-store traces through a run. -/

theorem stageBackup_src (m : Manips) (rec : ImageRecord) (imageId : Nat)
    (pdf : Pdf) (st : St) : (stageBackup m rec imageId pdf st).src = st.src := by
  simp only [stageBackup, s3upload]
  split <;> rfl

theorem redMarks_src : ∀ (reds : List Redaction) (s : St),
    (reds.foldl (fun s r => dbMarkRedactionApplied r.id s) s).src = s.src := by
  intro reds
  induction reds with
  | nil => intro s; rfl
  | cons r rest ih =>
      intro s
      rw [List.foldl_cons, ih]
      rfl

theorem redactionProcess_src (p : Pdf) (reds : List Redaction) (s : St) :
    (redactionProcess p reds s).2.2.src = s.src := by
  simp only [redactionProcess]
  split
  · rfl
  · exact redMarks_src reds s

theorem stageRedactions_src (reds : List Redaction) (p : Pdf) (s : St) :
    (stageRedactions reds p s).2.2.src = s.src := by
  simp only [stageRedactions]
  split
  · rfl
  · exact redactionProcess_src p reds s

theorem rotationProcess_st (p : Pdf) (rots : List Rotation) (s : St) :
    (rotationProcess p rots s).2.2 = s := by
  simp only [rotationProcess]
  split <;> rfl

theorem stageRotations_st (rots : List Rotation) (p : Pdf) (s : St) :
    (stageRotations rots p s).2 = s := by
  simp only [stageRotations]
  split
  · rfl
  · exact rotationProcess_st p rots s

theorem stageSaveBack_src_deleted (imageId : Nat) (rec : ImageRecord) (K : String)
    (p : Pdf) (fpc : Int) (s : St) :
    (stageSaveBack imageId rec K p fpc s).src.deleted = s.src.deleted := by
  simp only [stageSaveBack, s3upload]
  split
  · simp only [dbUpdatePageCount, pushDb]
    split <;> rfl
  · rfl

theorem mem_writeKeys_stageSaveBack (imageId : Nat) (rec : ImageRecord) (K : String)
    (p : Pdf) (fpc : Int) (s : St) :
    K ∈ (stageSaveBack imageId rec K p fpc s).s3WriteKeys := by
  simp only [stageSaveBack, s3upload, dbUpdatePageCount, pushDb]
  split <;> simp

/-- Tail of the delete-every-page scenario after the earlier stages: the
deletion step tombstones the row and reports documentDeleted with
finalPageCount 0. -/
theorem tail_deleteAll {imageId : Nat} {dels : List Deletion} {pdf2 : Pdf}
    {s2 : St} {L : Nat} (hdels : dels ≠ []) (hlen : pdf2.length = L)
    (hid : s2.src.id = imageId)
    (hcov : ∀ k : Nat, k < L → ((k : Int) ∈ validDeletionIdxs dels L)) :
    (stageDeletions imageId dels pdf2 s2).2.2.src.deleted = true ∧
    ((stageDeletions imageId dels pdf2 s2).2.1.map fun d => d.documentDeleted) = some true ∧
    ((stageDeletions imageId dels pdf2 s2).2.1.map fun d => d.finalPageCount) = some 0 ∧
    (stageDeletions imageId dels pdf2 s2).1 = pdf2 := by
  have hcov2 : ∀ k : Nat, k < pdf2.length →
      ((k : Int) ∈ validDeletionIdxs dels pdf2.length) := by
    rw [hlen]
    exact hcov
  have heq := deletionProcess_deleteAll imageId pdf2 dels s2 hdels hcov2
  have hne : dels.isEmpty = false := by
    cases dels with
    | nil => exact absurd rfl hdels
    | cons a l => rfl
  simp [stageDeletions, hne, heq, dbMarkImageDeleted, pushDb, hid]

/-- C2 (amended): when the valid, deduplicated deletion indices cover
every page, the document row is tombstoned, the deletion stage performs
no PDF mutation and reports documentDeleted with finalPageCount 0 - but,
contrary to the original claim, the invocation still writes the processed
PDF to the source's Processing key, because the orchestrator saves the
buffer back whenever no split produced new documents. -/
theorem C2_tombstone_but_write
    {imageId : Nat} {m : Manips} {elapsed timeout : Nat} {st : St}
    {rec : ImageRecord} {pdf0 : Pdf}
    (hrec : getImageRecord imageId st = some rec)
    (htot : totalManips m ≠ 0)
    (hdl : st.s3Store.lookup (mkKey "Processing" rec.path imageId) = some pdf0)
    (hclk : ¬((elapsed : Int) > (timeout : Int) - 60))
    (hbrk : m.pageBreaks = [])
    (hdels : m.deletions ≠ [])
    (hid : st.src.id = imageId)
    (hcov : ∀ k : Nat, k < pdf0.length →
      ((k : Int) ∈ validDeletionIdxs m.deletions pdf0.length)) :
    (∀ (p : Pdf) (s : St),
      (∀ k : Nat, k < p.length → ((k : Int) ∈ validDeletionIdxs m.deletions p.length)) →
      (deletionProcess imageId p m.deletions s).1 = p ∧
      (deletionProcess imageId p m.deletions s).2.1.documentDeleted = true ∧
      (deletionProcess imageId p m.deletions s).2.1.finalPageCount = 0) ∧
    (∃ r stF, processDocumentManipulations imageId m elapsed timeout st =
        (Except.ok r, stF) ∧
      stF.src.deleted = true ∧
      (r.deletionResult.map fun d => d.documentDeleted) = some true ∧
      (r.deletionResult.map fun d => d.finalPageCount) = some 0 ∧
      mkKey "Processing" rec.path imageId ∈ stF.s3WriteKeys) := by
  constructor
  · intro p s hcovp
    rw [deletionProcess_deleteAll imageId p m.deletions s hdels hcovp]
    exact ⟨rfl, rfl, rfl⟩
  · have heq := orch_noBreaks_eq hrec htot hdl hclk hbrk
    simp only [] at heq
    have hid2 : (stageRotations m.rotations
        (stageRedactions m.redactions pdf0 (stageBackup m rec imageId pdf0
          (addReadKey (mkKey "Processing" rec.path imageId) st))).1
        (stageRedactions m.redactions pdf0 (stageBackup m rec imageId pdf0
          (addReadKey (mkKey "Processing" rec.path imageId) st))).2.2).2.src.id
        = imageId := by
      rw [stageRotations_st, stageRedactions_src, stageBackup_src]
      exact hid
    have hlen2 : (stageRotations m.rotations
        (stageRedactions m.redactions pdf0 (stageBackup m rec imageId pdf0
          (addReadKey (mkKey "Processing" rec.path imageId) st))).1
        (stageRedactions m.redactions pdf0 (stageBackup m rec imageId pdf0
          (addReadKey (mkKey "Processing" rec.path imageId) st))).2.2).1.length
        = pdf0.length := by
      rw [stageRotations_length, stageRedactions_length]
    have htail := tail_deleteAll hdels hlen2 hid2 hcov
    refine ⟨_, _, heq, ?_, htail.2.1, htail.2.2.1, ?_⟩
    · rw [stageSaveBack_src_deleted]
      exact htail.1
    · exact mem_writeKeys_stageSaveBack _ _ _ _ _ _

/-- C2 witness: the concrete delete-every-page run. -/
theorem C2_tombstone_but_write_witness :
    ∃ r stF, processDocumentManipulations 7 manDelAllA 0 840 stA =
        (Except.ok r, stF) ∧
      stF.src.deleted = true ∧
      (r.deletionResult.map fun d => d.documentDeleted) = some true ∧
      (r.deletionResult.map fun d => d.finalPageCount) = some 0 ∧
      mkKey "Processing" srcA.path 7 ∈ stF.s3WriteKeys :=
  (C2_tombstone_but_write
    ((by decide) : getImageRecord 7 stA = some srcA)
    ((by decide) : totalManips manDelAllA ≠ 0)
    ((by decide) : stA.s3Store.lookup (mkKey "Processing" srcA.path 7) = some (pdfN 4))
    ((by decide) : ¬(((0 : Nat) : Int) > ((840 : Nat) : Int) - 60))
    rfl
    ((by decide) : manDelAllA.deletions ≠ [])
    ((by decide) : stA.src.id = 7)
    ((by decide) : ∀ k : Nat, k < (pdfN 4).length →
      ((k : Int) ∈ validDeletionIdxs manDelAllA.deletions (pdfN 4).length))).2

/-! The rename-only strategy: selection and effects. -/

theorem dbUpdateImageDocumentType_src (imageId docTypeId : Nat) (d : Option Nat)
    (c : Option String) (st : St) (hid : st.src.id = imageId)
    (hd : d.isSome = true) (hc : strTruthy c = true) :
    (dbUpdateImageDocumentType imageId docTypeId d c st).src =
      { st.src with docTypeManualId := docTypeId, documentDate := d, comments := c } := by
  simp [dbUpdateImageDocumentType, pushDb, hid, hd, hc]

theorem dbMarkBookmarkProcessed_rows (bookmarkId resultImageId : Nat) (s : St) :
    ∀ row ∈ (dbMarkBookmarkProcessed bookmarkId resultImageId s).bookRows,
      row.bm.id = bookmarkId →
      row.resultImageId = some resultImageId ∧ row.deleted = true := by
  intro row hrow hbid
  simp only [dbMarkBookmarkProcessed, pushDb] at hrow
  rcases List.mem_map.mp hrow with ⟨r0, hr0, rfl⟩
  by_cases h : r0.bm.id = bookmarkId
  · rw [if_pos h]
    exact ⟨rfl, rfl⟩
  · rw [if_neg h] at hbid
    exact absurd hbid h

/-- C5: the split stage selects rename_only exactly when there is one
break and its index is 0; in that case no rows and no split logs are
created, the source row's type, date and comments are updated from the
break (date and comments when the break carries them), and the break is
marked processed with the source's own id as ResultImageID. -/
theorem C5_rename_only (bs : List Bookmark) (rec : ImageRecord) (pdf : Pdf)
    (b : Bookmark) (st : St)
    (hb0 : b.pageIndex = 0) (hid : st.src.id = rec.id)
    (hdate : b.documentDate.isSome = true) (hcomm : strTruthy b.comments = true) :
    (determineSplitStrategy (sortBreaks bs) = "rename_only" ↔
      ∃ b', bs = [b'] ∧ b'.pageIndex = 0) ∧
    ((splittingProcess rec pdf [b] st).1.newImageIds = []) ∧
    ((splittingProcess rec pdf [b] st).1.operationType = "rename_only") ∧
    ((splittingProcess rec pdf [b] st).2.splitRows = st.splitRows) ∧
    ((splittingProcess rec pdf [b] st).2.splitLogs = st.splitLogs) ∧
    ((splittingProcess rec pdf [b] st).2.src.docTypeManualId = b.imageDocumentTypeId) ∧
    ((splittingProcess rec pdf [b] st).2.src.documentDate = b.documentDate) ∧
    ((splittingProcess rec pdf [b] st).2.src.comments = b.comments) ∧
    (∀ row ∈ (splittingProcess rec pdf [b] st).2.bookRows,
      row.bm.id = b.id → row.resultImageId = some rec.id ∧ row.deleted = true) ∧
    DbEv.write (DbWrite.markBookmarkProcessed b.id rec.id) ∈
      (splittingProcess rec pdf [b] st).2.dbTrace := by
  have hstrat : determineSplitStrategy (sortBreaks [b]) = "rename_only" := by
    have : sortBreaks [b] = [b] := rfl
    rw [this]
    simp [determineSplitStrategy, hb0]
  have hsp : splittingProcess rec pdf [b] st =
      handleRenameOnly rec b
        { newImageIds := [], splitDocuments := [], originalImageId := rec.id,
          originalPageCount := pdf.length,
          splitStrategy := determineSplitStrategy (sortBreaks [b]),
          operationType := "", newDocumentType := none } st := by
    simp only [splittingProcess, List.isEmpty_cons, Bool.false_eq_true, if_false,
      hstrat, if_pos]
    rfl
  constructor
  · cases bs with
    | nil =>
        constructor
        · intro h
          exact absurd h (by decide)
        · rintro ⟨b', hb', _⟩
          exact absurd hb' (by simp)
    | cons x xs =>
        cases xs with
        | nil =>
            have hx : sortBreaks [x] = [x] := rfl
            rw [hx]
            constructor
            · intro h
              refine ⟨x, rfl, ?_⟩
              by_contra hne
              simp [determineSplitStrategy, hne] at h
            · rintro ⟨b', hb', hb'0⟩
              have : x = b' := by
                injection hb'
              subst this
              simp [determineSplitStrategy, hb'0]
        | cons y ys =>
            have hlen : (sortBreaks (x :: y :: ys)).length = ys.length + 2 := by
              rw [(perm_sortBreaks (x :: y :: ys)).length_eq]
              simp
            constructor
            · intro h
              cases hs : sortBreaks (x :: y :: ys) with
              | nil => rw [hs] at h; exact absurd h (by decide)
              | cons z zs =>
                  cases zs with
                  | nil =>
                      rw [hs] at hlen
                      simp at hlen
                  | cons w ws =>
                      rw [hs] at h
                      rw [show determineSplitStrategy (z :: w :: ws) = "full_split" from rfl] at h
                      exact absurd h (by decide)
            · rintro ⟨b', hb', _⟩
              exact absurd hb' (by simp)
  · rw [hsp]
    have hsrc := dbUpdateImageDocumentType_src rec.id b.imageDocumentTypeId
      b.documentDate b.comments st hid hdate hcomm
    refine ⟨rfl, rfl, rfl, rfl, ?_, ?_, ?_, ?_, ?_⟩
    · show (dbUpdateImageDocumentType rec.id b.imageDocumentTypeId
        b.documentDate b.comments st).src.docTypeManualId = b.imageDocumentTypeId
      rw [hsrc]
    · show (dbUpdateImageDocumentType rec.id b.imageDocumentTypeId
        b.documentDate b.comments st).src.documentDate = b.documentDate
      rw [hsrc]
    · show (dbUpdateImageDocumentType rec.id b.imageDocumentTypeId
        b.documentDate b.comments st).src.comments = b.comments
      rw [hsrc]
    · exact dbMarkBookmarkProcessed_rows b.id rec.id _
    · simp [handleRenameOnly, dbMarkBookmarkProcessed, pushDb]

/-- C5 witness: a rename-only run on the concrete fixture. -/
theorem C5_rename_only_witness :
    (splittingProcess srcA (pdfN 4) [bkR] stB).1.newImageIds = [] ∧
    (splittingProcess srcA (pdfN 4) [bkR] stB).2.src.docTypeManualId =
      bkR.imageDocumentTypeId ∧
    DbEv.write (DbWrite.markBookmarkProcessed bkR.id srcA.id) ∈
      (splittingProcess srcA (pdfN 4) [bkR] stB).2.dbTrace := by
  have h := C5_rename_only [bkR] srcA (pdfN 4) bkR stB (by decide) (by decide)
    (by decide) (by decide)
  exact ⟨h.2.1, h.2.2.2.2.2.1, h.2.2.2.2.2.2.2.2.2⟩

/-! C9: every redaction row is marked applied, including skipped and
failed rows. -/

theorem redMarks_trace_mono : ∀ (reds : List Redaction) (s : St) (e : DbEv),
    e ∈ s.dbTrace →
    e ∈ (reds.foldl (fun s r => dbMarkRedactionApplied r.id s) s).dbTrace := by
  intro reds
  induction reds with
  | nil => intro s e he; exact he
  | cons r rest ih =>
      intro s e he
      rw [List.foldl_cons]
      refine ih _ e ?_
      simp only [dbMarkRedactionApplied, pushDb]
      exact List.mem_append_left _ he

theorem redMarks_trace_all : ∀ (reds : List Redaction) (s : St) (r : Redaction),
    r ∈ reds →
    DbEv.write (DbWrite.markRedactionApplied r.id) ∈
      (reds.foldl (fun s r => dbMarkRedactionApplied r.id s) s).dbTrace := by
  intro reds
  induction reds with
  | nil => intro s r hr; exact absurd hr (List.not_mem_nil r)
  | cons r0 rest ih =>
      intro s r hr
      rw [List.foldl_cons]
      rcases List.mem_cons.mp hr with h | h
      · subst h
        refine redMarks_trace_mono rest _ _ ?_
        simp [dbMarkRedactionApplied, pushDb]
      · exact ih _ r h

theorem redMarks_rows_keep : ∀ (reds : List Redaction) (s : St) (i : Nat),
    (∀ row ∈ s.redRows, row.id = i → row.applied = true) →
    (∀ row ∈ (reds.foldl (fun s r => dbMarkRedactionApplied r.id s) s).redRows,
      row.id = i → row.applied = true) := by
  intro reds
  induction reds with
  | nil => intro s i h; exact h
  | cons r0 rest ih =>
      intro s i h
      rw [List.foldl_cons]
      refine ih _ i ?_
      intro row hrow hri
      simp only [dbMarkRedactionApplied, pushDb] at hrow
      rcases List.mem_map.mp hrow with ⟨q, hq, rfl⟩
      by_cases hqi : q.id = r0.id
      · rw [if_pos hqi]
      · rw [if_neg hqi] at hri ⊢
        exact h q hq hri

theorem redMarks_rows_set : ∀ (reds : List Redaction) (s : St) (r : Redaction),
    r ∈ reds →
    (∀ row ∈ (reds.foldl (fun s r => dbMarkRedactionApplied r.id s) s).redRows,
      row.id = r.id → row.applied = true) := by
  intro reds
  induction reds with
  | nil => intro s r hr; exact absurd hr (List.not_mem_nil r)
  | cons r0 rest ih =>
      intro s r hr
      rcases List.mem_cons.mp hr with h | h
      · subst h
        rw [List.foldl_cons]
        refine redMarks_rows_keep rest _ _ ?_
        intro row hrow hri
        simp only [dbMarkRedactionApplied, pushDb] at hrow
        rcases List.mem_map.mp hrow with ⟨q, hq, rfl⟩
        by_cases hqi : q.id = r.id
        · rw [if_pos hqi]
        · rw [if_neg hqi] at hri
          exact absurd hri hqi
      · rw [List.foldl_cons]
        exact ih _ r h

/-- C9: the redaction stage marks EVERY input redaction row applied -
rows skipped for an out-of-range page and rows on which the engine raised
included - so no input row remains in the pending query afterwards. -/
theorem C9_all_redactions_marked (pdf : Pdf) (reds : List Redaction) (st : St) :
    (∀ r ∈ reds, DbEv.write (DbWrite.markRedactionApplied r.id) ∈
      (redactionProcess pdf reds st).2.2.dbTrace) ∧
    (∀ r ∈ reds, ∀ row ∈ (redactionProcess pdf reds st).2.2.redRows,
      row.id = r.id → row.applied = true) ∧
    (∀ r ∈ reds, ∀ row ∈ getPendingRedactions (redactionProcess pdf reds st).2.2.redRows,
      row.id ≠ r.id) := by
  have hproc : ∀ r ∈ reds, (redactionProcess pdf reds st).2.2 =
      reds.foldl (fun s r => dbMarkRedactionApplied r.id s) st := by
    intro r hr
    have hne : reds.isEmpty = false := by
      cases reds with
      | nil => exact absurd hr (List.not_mem_nil r)
      | cons a l => rfl
    simp only [redactionProcess, hne, Bool.false_eq_true, if_false]
  refine ⟨?_, ?_, ?_⟩
  · intro r hr
    rw [hproc r hr]
    exact redMarks_trace_all reds st r hr
  · intro r hr
    rw [hproc r hr]
    exact redMarks_rows_set reds st r hr
  · intro r hr row hrow
    intro hEq
    have happ : row.applied = true := by
      have h2 : ∀ row ∈ (redactionProcess pdf reds st).2.2.redRows,
          row.id = r.id → row.applied = true := by
        rw [hproc r hr]
        exact redMarks_rows_set reds st r hr
      exact h2 row (List.mem_filter.mp hrow).1 hEq
    have hpend := (List.mem_filter.mp hrow).2
    simp only [getPendingRedactions] at hpend
    rw [happ] at hpend
    simp at hpend

/-- C9 witness: both the out-of-range redaction (id 51, page 9 of a
four-page document) and the failing redaction (id 52) are marked. -/
theorem C9_all_redactions_marked_witness :
    DbEv.write (DbWrite.markRedactionApplied 51) ∈
      (redactionProcess (pdfN 4) [redOutOfRange, redFailing] stRed).2.2.dbTrace ∧
    DbEv.write (DbWrite.markRedactionApplied 52) ∈
      (redactionProcess (pdfN 4) [redOutOfRange, redFailing] stRed).2.2.dbTrace := by
  have h := C9_all_redactions_marked (pdfN 4) [redOutOfRange, redFailing] stRed
  exact ⟨h.1 redOutOfRange (by decide), h.1 redFailing (by decide)⟩

/-! Handler-route characterizations. -/

theorem lambdaHandler_health (ev : Event) (m : Manips) (elapsed : Nat) (st : St)
    (hop : ev.operation = "health_check") (hid : ev.imageId ≠ 0) :
    lambdaHandler ev m elapsed st =
      ({ statusCode := 200, result := none },
       dbUpdateImageStatus ev.imageId "NeedsProcessing"
         (performHealthCheck ev.imageId
           (dbUpdateImageStatus ev.imageId "InWorkman" st)).2) := by
  simp only [lambdaHandler, if_neg hid, hop]
  rw [if_neg (show ¬("health_check" = "") from by decide)]
  rw [if_neg (show ¬("health_check" = "process_manipulations") from by decide)]
  rw [if_pos trivial]

theorem lambdaHandler_process_ok (ev : Event) (m : Manips) (elapsed : Nat) (st : St)
    (r : OrchResult) (stO : St)
    (hop : ev.operation = "process_manipulations") (hid : ev.imageId ≠ 0)
    (hrun : processDocumentManipulations ev.imageId m elapsed ev.timeoutSeconds
      (dbUpdateImageStatus ev.imageId "InWorkman" st) = (Except.ok r, stO)) :
    lambdaHandler ev m elapsed st =
      ({ statusCode := 200, result := some r },
       dbUpdateImageStatus ev.imageId "NeedsProcessing" stO) := by
  simp only [lambdaHandler, if_neg hid, hop]
  rw [if_neg (show ¬("process_manipulations" = "") from by decide)]
  rw [if_pos trivial, hrun]

theorem lambdaHandler_process_err (ev : Event) (m : Manips) (elapsed : Nat) (st : St)
    (e : PErr) (stO : St)
    (hop : ev.operation = "process_manipulations") (hid : ev.imageId ≠ 0)
    (hrun : processDocumentManipulations ev.imageId m elapsed ev.timeoutSeconds
      (dbUpdateImageStatus ev.imageId "InWorkman" st) = (Except.error e, stO)) :
    lambdaHandler ev m elapsed st =
      ({ statusCode := 500, result := none },
       dbUpdateImageStatus ev.imageId "NeedsImageManipulation" stO) := by
  simp only [lambdaHandler, if_neg hid, hop]
  rw [if_neg (show ¬("process_manipulations" = "") from by decide)]
  rw [if_pos trivial, hrun]

theorem statusWrites_append (a b : List DbEv) :
    statusWrites (a ++ b) = statusWrites a ++ statusWrites b := by
  simp [statusWrites, List.filterMap_append]

theorem dbUpdateImageStatus_trace (i : Nat) (status : String) (sid : Nat) (s : St)
    (h : statusId? status = some sid) :
    (dbUpdateImageStatus i status s).dbTrace =
      s.dbTrace ++ [DbEv.write (DbWrite.setStatus i sid), DbEv.commit] := by
  simp [dbUpdateImageStatus, h, pushDb]

theorem performHealthCheck_dbTrace (i : Nat) (s : St) :
    (performHealthCheck i s).2.dbTrace = s.dbTrace := by
  rcases hg : getImageRecord i s with _ | rec <;>
    simp [performHealthCheck, hg, s3exists]

theorem performHealthCheck_src (i : Nat) (s : St) :
    (performHealthCheck i s).2.src = s.src := by
  rcases hg : getImageRecord i s with _ | rec <;>
    simp [performHealthCheck, hg, s3exists]

theorem orch_total0 (i : Nat) (m : Manips) (el tout : Nat) (s : St)
    (rec : ImageRecord) (hrec : getImageRecord i s = some rec)
    (htot : totalManips m = 0) :
    processDocumentManipulations i m el tout s = (Except.ok {}, s) := by
  simp [processDocumentManipulations, hrec, htot]

theorem dbUpdateImageStatus_src (i : Nat) (status : String) (sid : Nat) (s : St)
    (h : statusId? status = some sid) (hid : s.src.id = i) :
    (dbUpdateImageStatus i status s).src = { s.src with imageStatusTypeId := sid } := by
  simp [dbUpdateImageStatus, h, pushDb, hid]

theorem dbUpdateImageStatus_src_keep (i : Nat) (status : String) (s : St) :
    (dbUpdateImageStatus i status s).src.id = s.src.id ∧
    (dbUpdateImageStatus i status s).src.deleted = s.src.deleted := by
  simp only [dbUpdateImageStatus]
  cases statusId? status with
  | none => exact ⟨rfl, rfl⟩
  | some sid =>
      simp only [pushDb]
      split <;> exact ⟨rfl, rfl⟩

/-- C10: a health_check invocation is not read-only: the handler writes
InWorkman (9) before routing and NeedsProcessing (3) after, exactly the
wrapper writes a process_manipulations invocation gets. -/
theorem C10_health_check_not_read_only
    (ev : Event) (m : Manips) (elapsed : Nat) (st : St)
    (hop : ev.operation = "health_check")
    (hid : ev.imageId ≠ 0) (hsrc : st.src.id = ev.imageId) :
    (∃ stF, lambdaHandler ev m elapsed st =
        ({ statusCode := 200, result := none }, stF) ∧
      statusWrites stF.dbTrace = statusWrites st.dbTrace ++ [9, 3] ∧
      stF.src.imageStatusTypeId = 3) ∧
    (∀ (ev2 : Event) (st2 : St), ev2.operation = "process_manipulations" →
      ev2.imageId ≠ 0 → st2.src.id = ev2.imageId → st2.src.deleted = false →
      totalManips m = 0 →
      ∃ out2 stF2, lambdaHandler ev2 m elapsed st2 = (out2, stF2) ∧
        out2.statusCode = 200 ∧
        statusWrites stF2.dbTrace = statusWrites st2.dbTrace ++ [9, 3]) := by
  constructor
  · refine ⟨_, lambdaHandler_health ev m elapsed st hop hid, ?_, ?_⟩
    · rw [dbUpdateImageStatus_trace ev.imageId "NeedsProcessing" 3 _ rfl]
      rw [statusWrites_append]
      rw [performHealthCheck_dbTrace]
      rw [dbUpdateImageStatus_trace ev.imageId "InWorkman" 9 _ rfl]
      rw [statusWrites_append]
      simp [statusWrites]
    · have h9 := dbUpdateImageStatus_src ev.imageId "InWorkman" 9 st (by decide) hsrc
      have h1 : (performHealthCheck ev.imageId
          (dbUpdateImageStatus ev.imageId "InWorkman" st)).2.src.id = ev.imageId := by
        rw [performHealthCheck_src, h9]
        exact hsrc
      rw [dbUpdateImageStatus_src ev.imageId "NeedsProcessing" 3 _ (by decide) h1]
  · intro ev2 st2 hop2 hid2 hsrc2 hdel2 htot2
    have hkeep := dbUpdateImageStatus_src_keep ev2.imageId "InWorkman" st2
    have hrec2 : getImageRecord ev2.imageId
        (dbUpdateImageStatus ev2.imageId "InWorkman" st2) =
        some (dbUpdateImageStatus ev2.imageId "InWorkman" st2).src := by
      simp [getImageRecord, hkeep.1, hkeep.2, hsrc2, hdel2]
    have hrun := orch_total0 ev2.imageId m elapsed ev2.timeoutSeconds _ _ hrec2 htot2
    refine ⟨_, _, lambdaHandler_process_ok ev2 m elapsed st2 {} _ hop2 hid2 hrun, rfl, ?_⟩
    rw [dbUpdateImageStatus_trace ev2.imageId "NeedsProcessing" 3 _ rfl]
    rw [statusWrites_append]
    rw [dbUpdateImageStatus_trace ev2.imageId "InWorkman" 9 _ rfl]
    rw [statusWrites_append]
    simp [statusWrites]

/-- C10 witness: the concrete health_check run. -/
theorem C10_health_check_not_read_only_witness :
    ∃ stF, lambdaHandler evHealthA manSplitA 0 stA =
        ({ statusCode := 200, result := none }, stF) ∧
      statusWrites stF.dbTrace = statusWrites stA.dbTrace ++ [9, 3] ∧
      stF.src.imageStatusTypeId = 3 :=
  (C10_health_check_not_read_only evHealthA manSplitA 0 stA rfl (by decide)
    (by decide)).1

/-! C7: the single deadline check. -/

theorem addReadKey_src (k : String) (s : St) : (addReadKey k s).src = s.src := rfl

theorem addReadKey_dbTrace (k : String) (s : St) :
    (addReadKey k s).dbTrace = s.dbTrace := rfl

theorem dbUpdateImageStatus_s3Store (i : Nat) (status : String) (s : St) :
    (dbUpdateImageStatus i status s).s3Store = s.s3Store := by
  simp only [dbUpdateImageStatus]
  cases statusId? status with
  | none => rfl
  | some sid => simp only [pushDb]

theorem stageBackup_dbTrace (m : Manips) (rec : ImageRecord) (imageId : Nat)
    (pdf : Pdf) (st : St) : (stageBackup m rec imageId pdf st).dbTrace = st.dbTrace := by
  simp only [stageBackup, s3upload]
  split <;> rfl

theorem redMarks_statusWrites : ∀ (reds : List Redaction) (s : St),
    statusWrites ((reds.foldl (fun s r => dbMarkRedactionApplied r.id s) s).dbTrace) =
      statusWrites s.dbTrace := by
  intro reds
  induction reds with
  | nil => intro s; rfl
  | cons r rest ih =>
      intro s
      rw [List.foldl_cons, ih]
      simp only [dbMarkRedactionApplied, pushDb]
      rw [statusWrites_append]
      simp [statusWrites]

theorem stageRedactions_statusWrites (reds : List Redaction) (p : Pdf) (s : St) :
    statusWrites ((stageRedactions reds p s).2.2.dbTrace) = statusWrites s.dbTrace := by
  simp only [stageRedactions]
  split
  · rfl
  · simp only [redactionProcess]
    split
    · rfl
    · exact redMarks_statusWrites reds s

/-- Timeout path of the orchestrator: when the single check fails, the
run stops right after the redaction stage with the state so far. -/
theorem orch_timeout
    {imageId : Nat} {m : Manips} {elapsed timeout : Nat} {st : St}
    {rec : ImageRecord} {pdf0 : Pdf}
    (hrec : getImageRecord imageId st = some rec)
    (htot : totalManips m ≠ 0)
    (hdl : st.s3Store.lookup (mkKey "Processing" rec.path imageId) = some pdf0)
    (hclk : (elapsed : Int) > (timeout : Int) - 60) :
    processDocumentManipulations imageId m elapsed timeout st =
      (Except.error PErr.timeoutError,
       (stageRedactions m.redactions pdf0 (stageBackup m rec imageId pdf0
         (addReadKey (mkKey "Processing" rec.path imageId) st))).2.2) := by
  simp only [processDocumentManipulations, hrec, if_neg htot, s3download, hdl,
    if_pos hclk]

/-- C7 (amended): the pipeline performs exactly one deadline check, after
the redaction stage and before the rotation stage; when it fires the
handler answers 500 and resets the status to NeedsImageManipulation (7);
and the run's outcome does not depend on the elapsed time at any later
stage boundary or before any object-store write, because no other check
exists. -/
theorem C7_single_deadline_check
    (ev : Event) (m : Manips) (c c' : Clock) (st : St) (pdf0 : Pdf)
    (hop : ev.operation = "process_manipulations") (hid : ev.imageId ≠ 0)
    (hsrc : st.src.id = ev.imageId) (hdel : st.src.deleted = false)
    (htot : totalManips m ≠ 0)
    (hdl : st.s3Store.lookup (mkKey "Processing" st.src.path ev.imageId) = some pdf0) :
    ((c.afterRedactions : Int) > (ev.timeoutSeconds : Int) - 60 →
      ∃ stF, lambdaHandlerC ev m c st = ({ statusCode := 500, result := none }, stF) ∧
        stF.src.imageStatusTypeId = 7 ∧
        statusWrites stF.dbTrace = statusWrites st.dbTrace ++ [9, 7]) ∧
    (c.afterRedactions = c'.afterRedactions →
      lambdaHandlerC ev m c st = lambdaHandlerC ev m c' st) := by
  constructor
  · intro hlate
    have st1keep := dbUpdateImageStatus_src_keep ev.imageId "InWorkman" st
    have h9 := dbUpdateImageStatus_src ev.imageId "InWorkman" 9 st (by decide) hsrc
    have hrec1 : getImageRecord ev.imageId
        (dbUpdateImageStatus ev.imageId "InWorkman" st) =
        some (dbUpdateImageStatus ev.imageId "InWorkman" st).src := by
      simp [getImageRecord, st1keep.1, st1keep.2, hsrc, hdel]
    have hdl1 : (dbUpdateImageStatus ev.imageId "InWorkman" st).s3Store.lookup
        (mkKey "Processing" (dbUpdateImageStatus ev.imageId "InWorkman" st).src.path
          ev.imageId) = some pdf0 := by
      rw [dbUpdateImageStatus_s3Store, h9]
      exact hdl
    have hrun := orch_timeout hrec1 htot hdl1 hlate
    have heq := lambdaHandler_process_err ev m c.afterRedactions st
      PErr.timeoutError _ hop hid hrun
    refine ⟨_, heq, ?_, ?_⟩
    · rw [dbUpdateImageStatus_src ev.imageId "NeedsImageManipulation" 7 _
        (by decide) ?hidO]
      case hidO =>
        rw [stageRedactions_src, stageBackup_src, addReadKey_src, st1keep.1]
        exact hsrc
    · rw [dbUpdateImageStatus_trace ev.imageId "NeedsImageManipulation" 7 _ (by decide)]
      rw [statusWrites_append, stageRedactions_statusWrites, stageBackup_dbTrace,
        addReadKey_dbTrace]
      rw [dbUpdateImageStatus_trace ev.imageId "InWorkman" 9 st (by decide)]
      rw [statusWrites_append]
      simp [statusWrites]
  · intro h
    simp only [lambdaHandlerC, h]

/-- C7 witness: a run 800 seconds in at the single check, on the default
840 second budget, errors and resets the status. -/
theorem C7_single_deadline_check_witness :
    ∃ stF, lambdaHandlerC evA manDelAllA
        { afterRedactions := 800, afterRotations := 0, afterDeletions := 0,
          beforeUpload := 0 } stA =
      ({ statusCode := 500, result := none }, stF) ∧
      stF.src.imageStatusTypeId = 7 ∧
      statusWrites stF.dbTrace = statusWrites stA.dbTrace ++ [9, 7] := by
  have h := C7_single_deadline_check evA manDelAllA
    { afterRedactions := 800, afterRotations := 0, afterDeletions := 0, beforeUpload := 0 }
    { afterRedactions := 800, afterRotations := 5, afterDeletions := 5, beforeUpload := 5 }
    stA (pdfN 4) rfl (by decide) (by decide) (by decide) (by decide) (by decide)
  exact h.1 (by decide)

/-! The step relation: every reachable state extends the traces by
individually committed writes and standard object-store keys. -/

theorem pairedTrace_append {a b : List DbEv} (ha : PairedTrace a) (hb : PairedTrace b) :
    PairedTrace (a ++ b) := by
  induction ha with
  | nil => exact hb
  | cons w h ih => exact PairedTrace.cons w ih

theorem StepOk.refl (s : St) : StepOk s s :=
  ⟨⟨[], (List.append_nil _).symm, PairedTrace.nil⟩,
   ⟨[], (List.append_nil _).symm, by simp⟩,
   ⟨[], (List.append_nil _).symm, by simp⟩,
   ⟨[], (List.append_nil _).symm, by simp⟩⟩

theorem StepOk.trans {s₁ s₂ s₃ : St} (h1 : StepOk s₁ s₂) (h2 : StepOk s₂ s₃) :
    StepOk s₁ s₃ := by
  obtain ⟨⟨t1, ht1, hp1⟩, ⟨r1, hr1, hs1⟩, ⟨w1, hw1, hx1⟩, ⟨h1l, hh1, hy1⟩⟩ := h1
  obtain ⟨⟨t2, ht2, hp2⟩, ⟨r2, hr2, hs2⟩, ⟨w2, hw2, hx2⟩, ⟨h2l, hh2, hy2⟩⟩ := h2
  refine ⟨⟨t1 ++ t2, ?_, pairedTrace_append hp1 hp2⟩,
          ⟨r1 ++ r2, ?_, ?_⟩, ⟨w1 ++ w2, ?_, ?_⟩, ⟨h1l ++ h2l, ?_, ?_⟩⟩
  · rw [ht2, ht1, List.append_assoc]
  · rw [hr2, hr1, List.append_assoc]
  · intro k hk
    rcases List.mem_append.mp hk with h | h
    · exact hs1 k h
    · exact hs2 k h
  · rw [hw2, hw1, List.append_assoc]
  · intro k hk
    rcases List.mem_append.mp hk with h | h
    · exact hx1 k h
    · exact hx2 k h
  · rw [hh2, hh1, List.append_assoc]
  · intro k hk
    rcases List.mem_append.mp hk with h | h
    · exact hy1 k h
    · exact hy2 k h

theorem stepOk_of_push {s s' : St} (w : DbWrite)
    (ht : s'.dbTrace = s.dbTrace) (hr : s'.s3ReadKeys = s.s3ReadKeys)
    (hw : s'.s3WriteKeys = s.s3WriteKeys) (hh : s'.s3HeadKeys = s.s3HeadKeys) :
    StepOk s (pushDb w s') := by
  refine ⟨⟨[DbEv.write w, DbEv.commit], ?_, PairedTrace.cons w PairedTrace.nil⟩,
          ⟨[], ?_, by simp⟩, ⟨[], ?_, by simp⟩, ⟨[], ?_, by simp⟩⟩
  · simp [pushDb, ht]
  · simp [pushDb, hr]
  · simp [pushDb, hw]
  · simp [pushDb, hh]

theorem stepOk_dbUpdateImageStatus (i : Nat) (status : String) (s : St) :
    StepOk s (dbUpdateImageStatus i status s) := by
  simp only [dbUpdateImageStatus]
  cases statusId? status with
  | none => exact StepOk.refl s
  | some sid => exact stepOk_of_push _ rfl rfl rfl rfl

theorem stepOk_dbUpdatePageCount (i : Nat) (n : Int) (s : St) :
    StepOk s (dbUpdatePageCount i n s) :=
  stepOk_of_push _ rfl rfl rfl rfl

theorem stepOk_dbMarkImageDeleted (i : Nat) (s : St) :
    StepOk s (dbMarkImageDeleted i s) :=
  stepOk_of_push _ rfl rfl rfl rfl

theorem stepOk_dbMarkRedactionApplied (i : Nat) (s : St) :
    StepOk s (dbMarkRedactionApplied i s) :=
  stepOk_of_push _ rfl rfl rfl rfl

theorem stepOk_dbMarkPageDeletionProcessed (i : Nat) (s : St) :
    StepOk s (dbMarkPageDeletionProcessed i s) :=
  stepOk_of_push _ rfl rfl rfl rfl

theorem stepOk_dbUpdateImageDocumentType (i t : Nat) (d : Option Nat)
    (c : Option String) (s : St) :
    StepOk s (dbUpdateImageDocumentType i t d c s) :=
  stepOk_of_push _ rfl rfl rfl rfl

theorem stepOk_dbMarkBookmarkProcessed (b r : Nat) (s : St) :
    StepOk s (dbMarkBookmarkProcessed b r s) :=
  stepOk_of_push _ rfl rfl rfl rfl

theorem stepOk_dbCreateSplitImage (orig : ImageRecord) (t : Nat) (pc : Int)
    (pr : Int × Int) (d : Option Nat) (c : String) (ty : String) (s : St) :
    StepOk s (dbCreateSplitImage orig t pc pr d c ty s).2 :=
  stepOk_of_push _ rfl rfl rfl rfl

theorem stepOk_dbCreateSplitLog (a b : Nat) (s : St) :
    StepOk s (dbCreateSplitLog a b s) :=
  stepOk_of_push _ rfl rfl rfl rfl

theorem stdKey_mk {stage : String} (hs : stage ∈ allowedStages) (p : String) (i : Nat) :
    StdKey (mkKey stage p i) :=
  ⟨stage, p, i, hs, rfl⟩

theorem stepOk_s3upload {key : String} (hk : StdKey key) (content : Pdf) (s : St) :
    StepOk s (s3upload content key s) := by
  refine ⟨⟨[], ?_, PairedTrace.nil⟩, ⟨[], ?_, by simp⟩,
          ⟨[key], rfl, ?_⟩, ⟨[], ?_, by simp⟩⟩
  · simp [s3upload]
  · simp [s3upload]
  · intro k hk2
    rw [List.mem_singleton.mp hk2]
    exact hk
  · simp [s3upload]

theorem stepOk_addReadKey {key : String} (hk : StdKey key) (s : St) :
    StepOk s (addReadKey key s) := by
  refine ⟨⟨[], ?_, PairedTrace.nil⟩, ⟨[key], rfl, ?_⟩,
          ⟨[], ?_, by simp⟩, ⟨[], ?_, by simp⟩⟩
  · simp [addReadKey]
  · intro k hk2
    rw [List.mem_singleton.mp hk2]
    exact hk
  · simp [addReadKey]
  · simp [addReadKey]

theorem stepOk_s3exists {key : String} (hk : StdKey key) (s : St) :
    StepOk s (s3exists key s).2 := by
  refine ⟨⟨[], ?_, PairedTrace.nil⟩, ⟨[], ?_, by simp⟩,
          ⟨[], ?_, by simp⟩, ⟨[key], rfl, ?_⟩⟩
  · simp [s3exists]
  · simp [s3exists]
  · simp [s3exists]
  · intro k hk2
    rw [List.mem_singleton.mp hk2]
    exact hk

theorem StepOk.mem_reads {a b : St} (h : StepOk a b) {k : String}
    (hk : k ∈ a.s3ReadKeys) : k ∈ b.s3ReadKeys := by
  obtain ⟨_, ⟨r, hr, _⟩, _, _⟩ := h
  rw [hr]
  exact List.mem_append_left r hk

theorem StepOk.mem_writes {a b : St} (h : StepOk a b) {k : String}
    (hk : k ∈ a.s3WriteKeys) : k ∈ b.s3WriteKeys := by
  obtain ⟨_, _, ⟨w, hw, _⟩, _⟩ := h
  rw [hw]
  exact List.mem_append_left w hk

theorem stepOk_redMarks : ∀ (reds : List Redaction) (s : St),
    StepOk s (reds.foldl (fun s r => dbMarkRedactionApplied r.id s) s) := by
  intro reds
  induction reds with
  | nil => intro s; exact StepOk.refl s
  | cons r rest ih =>
      intro s
      rw [List.foldl_cons]
      exact StepOk.trans (stepOk_dbMarkRedactionApplied r.id s) (ih _)

theorem stepOk_redMarks_from : ∀ (reds : List Redaction) (s0 s : St),
    StepOk s0 s →
    StepOk s0 (reds.foldl (fun s r => dbMarkRedactionApplied r.id s) s) :=
  fun reds s0 s h => StepOk.trans h (stepOk_redMarks reds s)

theorem stepOk_redactionProcess (p : Pdf) (reds : List Redaction) (s : St) :
    StepOk s (redactionProcess p reds s).2.2 := by
  simp only [redactionProcess]
  split
  · exact StepOk.refl s
  · exact stepOk_redMarks reds s

theorem stepOk_rotationProcess (p : Pdf) (rots : List Rotation) (s : St) :
    StepOk s (rotationProcess p rots s).2.2 := by
  rw [rotationProcess_st]
  exact StepOk.refl s

theorem stepOk_delMarks (validIdxs : List Int) :
    ∀ (dels : List Deletion) (s : St),
    StepOk s (dels.foldl
      (fun s d => if d.pageIndex ∈ validIdxs then dbMarkPageDeletionProcessed d.id s
                  else s) s) := by
  intro dels
  induction dels with
  | nil => intro s; exact StepOk.refl s
  | cons d rest ih =>
      intro s
      rw [List.foldl_cons]
      refine StepOk.trans ?_ (ih _)
      split
      · exact stepOk_dbMarkPageDeletionProcessed d.id s
      · exact StepOk.refl s

theorem stepOk_deletionProcess (i : Nat) (p : Pdf) (dels : List Deletion) (s : St) :
    StepOk s (deletionProcess i p dels s).2.2 := by
  simp only [deletionProcess]
  split
  · exact StepOk.refl s
  · split
    · exact stepOk_dbMarkImageDeleted i s
    · split
      · exact StepOk.refl s
      · refine StepOk.trans ?_ (stepOk_delMarks _ dels _)
        split
        · exact stepOk_dbUpdatePageCount _ _ s
        · exact StepOk.refl s

theorem stepOk_stageBackup (m : Manips) (rec : ImageRecord) (i : Nat) (p : Pdf)
    (s : St) : StepOk s (stageBackup m rec i p s) := by
  simp only [stageBackup]
  split
  · exact stepOk_s3upload (stdKey_mk (by simp [allowedStages]) rec.path i) p s
  · exact StepOk.refl s

theorem stepOk_stageRedactions (reds : List Redaction) (p : Pdf) (s : St) :
    StepOk s (stageRedactions reds p s).2.2 := by
  simp only [stageRedactions]
  split
  · exact StepOk.refl s
  · exact stepOk_redactionProcess p reds s

theorem stepOk_stageRotations (rots : List Rotation) (p : Pdf) (s : St) :
    StepOk s (stageRotations rots p s).2 := by
  rw [stageRotations_st]
  exact StepOk.refl s

theorem stepOk_stageDeletions (i : Nat) (dels : List Deletion) (p : Pdf) (s : St) :
    StepOk s (stageDeletions i dels p s).2.2 := by
  simp only [stageDeletions]
  split
  · exact StepOk.refl s
  · exact stepOk_deletionProcess i p dels s

theorem stepOk_stageSaveBack {K : String} (hk : StdKey K) (i : Nat)
    (rec : ImageRecord) (p : Pdf) (fpc : Int) (s : St) :
    StepOk s (stageSaveBack i rec K p fpc s) := by
  simp only [stageSaveBack]
  refine StepOk.trans (stepOk_s3upload hk p s) ?_
  split
  · exact stepOk_dbUpdatePageCount _ _ _
  · exact StepOk.refl _

theorem stepOk_saveSplitToS3 (nid : Nat) (content : Pdf) (orig : ImageRecord)
    (s : St) : StepOk s (saveSplitToS3 nid content orig s) := by
  simp only [saveSplitToS3]
  refine StepOk.trans (stepOk_s3upload (stdKey_mk ?_ orig.path nid) content s)
    (StepOk.trans (stepOk_s3upload (stdKey_mk ?_ orig.path nid) content _)
      (stepOk_s3upload (stdKey_mk ?_ orig.path nid) content _))
  · simp [allowedStages]
  · simp [allowedStages]
  · simp [allowedStages]

theorem stepOk_splitFold : ∀ (ranges : List (Int × Int)) (rec : ImageRecord)
    (pdf : Pdf) (sorted : List Bookmark) (s : St),
    StepOk s (splitFold rec pdf sorted ranges s).2.2 := by
  intro ranges
  induction ranges with
  | nil => intro rec pdf sorted s; exact StepOk.refl s
  | cons rg rest ih =>
      intro rec pdf sorted s
      rcases rg with ⟨a, b⟩
      simp only [splitFold]
      rcases hbrk : findBreakForRange sorted a with _ | bk <;> simp only [hbrk]
      · refine StepOk.trans ?_ (ih rec pdf sorted _)
        exact StepOk.trans (stepOk_dbCreateSplitImage rec _ _ _ _ _ _ s)
          (stepOk_saveSplitToS3 _ _ _ _)
      · refine StepOk.trans ?_ (ih rec pdf sorted _)
        refine StepOk.trans
          (stepOk_dbCreateSplitImage rec bk.imageDocumentTypeId (b - a) (a, b)
            bk.documentDate (bk.comments.getD "") "page_break" s) ?_
        exact StepOk.trans (stepOk_saveSplitToS3 _ _ _ _)
          (stepOk_dbMarkBookmarkProcessed _ _ _)

theorem stepOk_logFold (recId : Nat) : ∀ (ids : List Nat) (s : St),
    StepOk s (ids.foldl (fun s nid => dbCreateSplitLog recId nid s) s) := by
  intro ids
  induction ids with
  | nil => intro s; exact StepOk.refl s
  | cons nid rest ih =>
      intro s
      rw [List.foldl_cons]
      exact StepOk.trans (stepOk_dbCreateSplitLog recId nid s) (ih _)

theorem stepOk_handleRenameOnly (rec : ImageRecord) (b : Bookmark)
    (base : SplitResult) (s : St) : StepOk s (handleRenameOnly rec b base s).2 := by
  simp only [handleRenameOnly]
  exact StepOk.trans (stepOk_dbUpdateImageDocumentType _ _ _ _ _)
    (stepOk_dbMarkBookmarkProcessed _ _ _)

theorem stepOk_handleFullSplit (rec : ImageRecord) (pdf : Pdf)
    (sorted : List Bookmark) (base : SplitResult) (s : St) :
    StepOk s (handleFullSplit rec pdf sorted base s).2 := by
  simp only [handleFullSplit]
  exact StepOk.trans (stepOk_splitFold _ rec pdf sorted s) (stepOk_logFold _ _ _)

theorem stepOk_splittingProcess (rec : ImageRecord) (pdf : Pdf)
    (bs : List Bookmark) (s : St) : StepOk s (splittingProcess rec pdf bs s).2 := by
  simp only [splittingProcess]
  split
  · exact StepOk.refl s
  · split
    · exact stepOk_handleRenameOnly _ _ _ _
    · exact stepOk_handleFullSplit _ _ _ _ _

theorem stepOk_orch (i : Nat) (m : Manips) (el t : Nat) (s : St) :
    StepOk s (processDocumentManipulations i m el t s).2 := by
  simp only [processDocumentManipulations, s3download]
  rcases hrec : getImageRecord i s with _ | rec <;> simp only [hrec]
  · exact StepOk.refl s
  · split
    · exact StepOk.refl s
    · rcases hlk : s.s3Store.lookup (mkKey "Processing" rec.path i) with _ | pdf0 <;>
        simp only [hlk]
      · exact stepOk_addReadKey (stdKey_mk (by simp [allowedStages]) rec.path i) s
      · have h1 : StepOk s (addReadKey (mkKey "Processing" rec.path i) s) :=
          stepOk_addReadKey (stdKey_mk (by simp [allowedStages]) rec.path i) s
        have h2 := StepOk.trans h1 (stepOk_stageBackup m rec i pdf0 _)
        have h3 := StepOk.trans h2 (stepOk_stageRedactions m.redactions pdf0 _)
        split
        · exact h3
        · split
          · exact StepOk.trans
              (StepOk.trans (StepOk.trans h3 (stepOk_stageRotations _ _ _))
                (stepOk_stageDeletions _ _ _ _))
              (stepOk_stageSaveBack (stdKey_mk (by simp [allowedStages]) rec.path i) _ _ _ _ _)
          · split
            · exact StepOk.trans
                (StepOk.trans
                  (StepOk.trans (StepOk.trans h3 (stepOk_stageRotations _ _ _))
                    (stepOk_stageDeletions _ _ _ _))
                  (stepOk_splittingProcess _ _ _ _))
                (stepOk_dbUpdateImageStatus i "Obsolete" _)
            · exact StepOk.trans
                (StepOk.trans
                  (StepOk.trans (StepOk.trans h3 (stepOk_stageRotations _ _ _))
                    (stepOk_stageDeletions _ _ _ _))
                  (stepOk_splittingProcess _ _ _ _))
                (stepOk_stageSaveBack (stdKey_mk (by simp [allowedStages]) rec.path i) _ _ _ _ _)

theorem stepOk_performHealthCheck (i : Nat) (s : St) :
    StepOk s (performHealthCheck i s).2 := by
  simp only [performHealthCheck]
  rcases hrec : getImageRecord i s with _ | rec <;> simp only [hrec]
  · exact StepOk.refl s
  · exact stepOk_s3exists (stdKey_mk (by simp [allowedStages]) rec.path i) s

theorem stepOk_lambdaHandler (ev : Event) (m : Manips) (el : Nat) (s : St) :
    StepOk s (lambdaHandler ev m el s).2 := by
  simp only [lambdaHandler]
  split
  · exact StepOk.refl s
  · split
    · exact StepOk.refl s
    · have h1 := stepOk_dbUpdateImageStatus ev.imageId "InWorkman" s
      split
      · rcases hrun : processDocumentManipulations ev.imageId m el ev.timeoutSeconds
            (dbUpdateImageStatus ev.imageId "InWorkman" s) with ⟨res, stO⟩
        have h2 : StepOk s stO := by
          have := stepOk_orch ev.imageId m el ev.timeoutSeconds
            (dbUpdateImageStatus ev.imageId "InWorkman" s)
          rw [hrun] at this
          exact StepOk.trans h1 this
        rcases res with r | e
        all_goals simp only [hrun]
        · exact StepOk.trans h2 (stepOk_dbUpdateImageStatus ev.imageId "NeedsImageManipulation" stO)
        · exact StepOk.trans h2 (stepOk_dbUpdateImageStatus ev.imageId "NeedsProcessing" stO)
      · split
        · refine StepOk.trans h1 ?_
          refine StepOk.trans (stepOk_performHealthCheck ev.imageId _) ?_
          exact stepOk_dbUpdateImageStatus ev.imageId "NeedsProcessing" _
        · exact StepOk.trans h1 (stepOk_dbUpdateImageStatus ev.imageId "NeedsImageManipulation" _)

theorem keysOk_of_stepOk {a b : St} (h : StepOk a b) (ha : KeysOk a) : KeysOk b := by
  obtain ⟨_, ⟨r, hr, hsr⟩, ⟨w, hw, hsw⟩, ⟨hl, hh, hsh⟩⟩ := h
  intro k hk
  have ha' : ∀ k, ((k ∈ a.s3ReadKeys ∨ k ∈ a.s3WriteKeys) ∨ k ∈ a.s3HeadKeys) → StdKey k := by
    intro k hk2
    apply ha
    simp only [allKeys, List.mem_append]
    exact hk2
  simp only [allKeys, hr, hw, hh, List.mem_append] at hk
  rcases hk with ((h1 | h1) | (h2 | h2)) | (h3 | h3)
  · exact ha' k (Or.inl (Or.inl h1))
  · exact hsr k h1
  · exact ha' k (Or.inl (Or.inr h2))
  · exact hsw k h2
  · exact ha' k (Or.inr h3)
  · exact hsh k h3

theorem mem_reads_addReadKey (key : String) (s : St) :
    key ∈ (addReadKey key s).s3ReadKeys := by
  simp [addReadKey]

theorem mem_writes_stageSaveBack (i : Nat) (rec : ImageRecord) (K : String)
    (p : Pdf) (fpc : Int) (s : St) : K ∈ (stageSaveBack i rec K p fpc s).s3WriteKeys := by
  simp only [stageSaveBack]
  have hbase : K ∈ (s3upload p K s).s3WriteKeys := by simp [s3upload]
  split
  · exact (stepOk_dbUpdatePageCount _ _ _).mem_writes hbase
  · exact hbase

theorem saveSplit_mem (nid : Nat) (content : Pdf) (orig : ImageRecord) (s : St) :
    mkKey "Original" orig.path nid ∈ (saveSplitToS3 nid content orig s).s3WriteKeys ∧
    mkKey "Processing" orig.path nid ∈ (saveSplitToS3 nid content orig s).s3WriteKeys ∧
    mkKey "Production" orig.path nid ∈ (saveSplitToS3 nid content orig s).s3WriteKeys := by
  refine ⟨?_, ?_, ?_⟩ <;> simp [saveSplitToS3, s3upload]

theorem splitFold_write_mem : ∀ (ranges : List (Int × Int)) (rec : ImageRecord)
    (pdf : Pdf) (sorted : List Bookmark) (s : St),
    ∀ nid ∈ (splitFold rec pdf sorted ranges s).1,
      mkKey "Original" rec.path nid ∈ (splitFold rec pdf sorted ranges s).2.2.s3WriteKeys ∧
      mkKey "Processing" rec.path nid ∈ (splitFold rec pdf sorted ranges s).2.2.s3WriteKeys ∧
      mkKey "Production" rec.path nid ∈ (splitFold rec pdf sorted ranges s).2.2.s3WriteKeys := by
  intro ranges
  induction ranges with
  | nil =>
      intro rec pdf sorted s nid hnid
      simp [splitFold] at hnid
  | cons rg rest ih =>
      intro rec pdf sorted s nid hnid
      rcases rg with ⟨a, b⟩
      simp only [splitFold] at hnid ⊢
      rcases hbrk : findBreakForRange sorted a with _ | bk <;>
        simp only [hbrk] at hnid ⊢
      · rcases List.mem_cons.mp hnid with h | h
        · subst h
          refine ⟨(stepOk_splitFold rest rec pdf sorted _).mem_writes ?_,
                  (stepOk_splitFold rest rec pdf sorted _).mem_writes ?_,
                  (stepOk_splitFold rest rec pdf sorted _).mem_writes ?_⟩
          · exact (saveSplit_mem _ _ _ _).1
          · exact (saveSplit_mem _ _ _ _).2.1
          · exact (saveSplit_mem _ _ _ _).2.2
        · exact ih rec pdf sorted _ nid h
      · rcases List.mem_cons.mp hnid with h | h
        · subst h
          refine ⟨(stepOk_splitFold rest rec pdf sorted _).mem_writes
                    ((stepOk_dbMarkBookmarkProcessed _ _ _).mem_writes ?_),
                  (stepOk_splitFold rest rec pdf sorted _).mem_writes
                    ((stepOk_dbMarkBookmarkProcessed _ _ _).mem_writes ?_),
                  (stepOk_splitFold rest rec pdf sorted _).mem_writes
                    ((stepOk_dbMarkBookmarkProcessed _ _ _).mem_writes ?_)⟩
          · exact (saveSplit_mem _ _ _ _).1
          · exact (saveSplit_mem _ _ _ _).2.1
          · exact (saveSplit_mem _ _ _ _).2.2
        · exact ih rec pdf sorted _ nid h

theorem splittingProcess_write_mem (rec : ImageRecord) (pdf : Pdf)
    (bs : List Bookmark) (s : St) :
    ∀ nid ∈ (splittingProcess rec pdf bs s).1.newImageIds,
      mkKey "Original" rec.path nid ∈ (splittingProcess rec pdf bs s).2.s3WriteKeys ∧
      mkKey "Processing" rec.path nid ∈ (splittingProcess rec pdf bs s).2.s3WriteKeys ∧
      mkKey "Production" rec.path nid ∈ (splittingProcess rec pdf bs s).2.s3WriteKeys := by
  simp only [splittingProcess]
  split
  · intro nid hnid
    simp at hnid
  · split
    · intro nid hnid
      simp [handleRenameOnly] at hnid
    · intro nid hnid
      simp only [handleFullSplit] at hnid ⊢
      have h := splitFold_write_mem _ rec pdf _ _ nid hnid
      exact ⟨(stepOk_logFold _ _ _).mem_writes h.1,
             (stepOk_logFold _ _ _).mem_writes h.2.1,
             (stepOk_logFold _ _ _).mem_writes h.2.2⟩

/-- C6 (amended): the metadata writes of a full split do NOT share one
transaction; instead every database write of any invocation — the
derived-row inserts, the Obsolete transition, the break updates and the
SplitLog rows included — is committed in its own transaction: a trace of
individually committed writes stays a trace of individually committed
writes across a whole handler run, so a prefix of a split's writes can be
durable while the rest never happens. -/
theorem C6_every_write_committed_separately (ev : Event) (m : Manips)
    (elapsed : Nat) (st : St) (h : PairedTrace st.dbTrace) :
    PairedTrace (lambdaHandler ev m elapsed st).2.dbTrace := by
  obtain ⟨⟨tr, htr, hp⟩, _, _, _⟩ := stepOk_lambdaHandler ev m elapsed st
  rw [htr]
  exact pairedTrace_append h hp

theorem C6_every_write_committed_separately_witness :
    PairedTrace (lambdaHandler evA manSplitA 0 stA).2.dbTrace :=
  C6_every_write_committed_separately evA manSplitA 0 stA PairedTrace.nil

/-- C8 (amended): every object-store key the pipeline reads, writes or
heads has the form stage/pathFragment/id/id.pdf with the stage drawn from
the set the code actually uses — Original, Processing, Production,
RedactOriginal — not the specification's IOriginal/IProcessing; the
working copy is fetched from and, on a break-free run, written back to
the Processing key; and each split output is written under the Original,
Processing and Production stages. -/
theorem C8_standard_keys :
    (∀ (ev : Event) (m : Manips) (elapsed : Nat) (st : St),
        KeysOk st → KeysOk (lambdaHandler ev m elapsed st).2) ∧
    (∀ (imageId : Nat) (m : Manips) (elapsed timeout : Nat) (st : St)
        (rec : ImageRecord) (pdf0 : Pdf),
        getImageRecord imageId st = some rec →
        totalManips m ≠ 0 →
        st.s3Store.lookup (mkKey "Processing" rec.path imageId) = some pdf0 →
        ¬((elapsed : Int) > (timeout : Int) - 60) →
        m.pageBreaks = [] →
        mkKey "Processing" rec.path imageId ∈
          (processDocumentManipulations imageId m elapsed timeout st).2.s3ReadKeys ∧
        mkKey "Processing" rec.path imageId ∈
          (processDocumentManipulations imageId m elapsed timeout st).2.s3WriteKeys) ∧
    (∀ (rec : ImageRecord) (pdf : Pdf) (bs : List Bookmark) (s : St),
        ∀ nid ∈ (splittingProcess rec pdf bs s).1.newImageIds,
          mkKey "Original" rec.path nid ∈ (splittingProcess rec pdf bs s).2.s3WriteKeys ∧
          mkKey "Processing" rec.path nid ∈ (splittingProcess rec pdf bs s).2.s3WriteKeys ∧
          mkKey "Production" rec.path nid ∈ (splittingProcess rec pdf bs s).2.s3WriteKeys) := by
  refine ⟨?_, ?_, splittingProcess_write_mem⟩
  · intro ev m elapsed st hst
    exact keysOk_of_stepOk (stepOk_lambdaHandler ev m elapsed st) hst
  · intro imageId m elapsed timeout st rec pdf0 hrec htot hdl hclk hbrk
    rw [orch_noBreaks_eq hrec htot hdl hclk hbrk]
    constructor
    · exact (StepOk.trans (stepOk_stageBackup _ _ _ _ _)
              (StepOk.trans (stepOk_stageRedactions _ _ _)
                (StepOk.trans (stepOk_stageRotations _ _ _)
                  (StepOk.trans (stepOk_stageDeletions _ _ _ _)
                    (stepOk_stageSaveBack
                      (stdKey_mk (by simp [allowedStages]) rec.path imageId)
                      _ _ _ _ _))))).mem_reads
        (mem_reads_addReadKey _ _)
    · exact mem_writes_stageSaveBack _ _ _ _ _ _

theorem C8_standard_keys_witness :
    (KeysOk stA ∧ KeysOk (lambdaHandler evA manSplitA 0 stA).2) ∧
    (mkKey "Processing" srcA.path 7 ∈
       (processDocumentManipulations 7 manDelAllA 0 840 stA).2.s3ReadKeys ∧
     mkKey "Processing" srcA.path 7 ∈
       (processDocumentManipulations 7 manDelAllA 0 840 stA).2.s3WriteKeys) ∧
    ((100 : Nat) ∈ (splittingProcess srcA (pdfN 4) [bkA] stA).1.newImageIds ∧
     mkKey "Original" srcA.path 100 ∈ (splittingProcess srcA (pdfN 4) [bkA] stA).2.s3WriteKeys ∧
     mkKey "Processing" srcA.path 100 ∈ (splittingProcess srcA (pdfN 4) [bkA] stA).2.s3WriteKeys ∧
     mkKey "Production" srcA.path 100 ∈ (splittingProcess srcA (pdfN 4) [bkA] stA).2.s3WriteKeys) := by
  have hko : KeysOk stA := by
    intro k hk
    exact absurd hk (by simp [allKeys, stA, initSt])
  have hmem : (100 : Nat) ∈ (splittingProcess srcA (pdfN 4) [bkA] stA).1.newImageIds := by
    decide
  have h2 := C8_standard_keys.2.1 7 manDelAllA 0 840 stA srcA (pdfN 4)
    (by decide) (by decide) (by decide) (by decide) rfl
  have h3 := C8_standard_keys.2.2 srcA (pdfN 4) [bkA] stA 100 hmem
  exact ⟨⟨hko, C8_standard_keys.1 evA manSplitA 0 stA hko⟩, h2, ⟨hmem, h3⟩⟩

end PdfProc
